import Mathlib

set_option maxRecDepth 100000

/-!
# Verification of the `rox` HTTP CONNECT proxy

Shallow embedding of the `rox` forward-proxy sources (an HTTP/1.1 message
parser/serializer plus the per-connection CONNECT/auth state machine) and
proofs about the spec's claims.

Modelling conventions, fixed once for the whole file:

* Rust `&str` / `String` values and raw byte buffers are both modelled as
  `List Char` (`Str`).  All inputs the claims exercise are ASCII, so the
  UTF-8 decoding steps of the source (`str::from_utf8`,
  `String::from_utf8_lossy`) are the identity on the modelled data and are
  elided; a byte is represented by the character with the same code point.
* Rust's Unicode-aware `char::is_whitespace` / `to_lowercase` /
  `to_uppercase` are modelled by their ASCII restrictions (HTTP header
  names, method tokens and status lines are ASCII by construction).
* `HashMap<HeaderKey, String>` is modelled as an association list looked up
  with the same equality the source's `PartialEq for HeaderKey` uses
  (equality of lowercased names); `HashMap::insert` replaces the value but
  keeps the stored key, exactly as in Rust.
* A readable socket is modelled as the list of chunks successive `read`
  calls deliver (each at most the scratch-buffer size); an exhausted list
  is end-of-stream (`read` returning 0).  I/O errors from the OS are not
  modelled (the error branches they feed are unreachable here).
* Machine integers (`usize`) are modelled as `Nat`; the bodies and lengths
  the claims exercise are far below any overflow boundary.
-/

namespace Rox

/-- Decidable equality for `Except`, used to evaluate parse results on
concrete inputs. -/
instance {ε α : Type} [DecidableEq ε] [DecidableEq α] :
    DecidableEq (Except ε α)
  | .error e, .error f =>
    if h : e = f then .isTrue (by rw [h])
    else .isFalse (by intro hh; cases hh; exact h rfl)
  | .error _, .ok _ => .isFalse (by intro h; cases h)
  | .ok _, .error _ => .isFalse (by intro h; cases h)
  | .ok a, .ok b =>
    if h : a = b then .isTrue (by rw [h])
    else .isFalse (by intro hh; cases hh; exact h rfl)

abbrev Str := List Char

/-- Shorthand turning a Lean string literal into the `List Char` model. -/
def str (s : String) : Str := s.toList

/-- ASCII restriction of Rust's `char::is_whitespace`. -/
def isWS (c : Char) : Bool :=
  c = ' ' || c = '\t' || c = '\n' || c = '\x0b' || c = '\x0c' || c = '\r'

/-- ASCII restriction of Rust's `to_lowercase` on a single character. -/
def lowerChar (c : Char) : Char :=
  if c.toNat ≥ 65 ∧ c.toNat ≤ 90 then Char.ofNat (c.toNat + 32) else c

/-- ASCII restriction of Rust's `to_uppercase` on a single character. -/
def upperChar (c : Char) : Char :=
  if c.toNat ≥ 97 ∧ c.toNat ≤ 122 then Char.ofNat (c.toNat - 32) else c

def lowerStr (s : Str) : Str := s.map lowerChar

def upperStr (s : Str) : Str := s.map upperChar

/-- The CRLF line terminator. -/
def crlf : Str := ['\r', '\n']

/-- The 4-byte header/body delimiter `\r\n\r\n`. -/
def delim : Str := ['\r', '\n', '\r', '\n']

/-- `s.split_once("\r\n")`: split at the first CRLF, if any. -/
def splitOnceCRLF : Str → Option (Str × Str)
  | [] => none
  | c :: rest =>
    if crlf.isPrefixOf (c :: rest) then some ([], rest.drop 1)
    else (splitOnceCRLF rest).map fun p => (c :: p.1, p.2)

/-- `s.split_once("\r\n\r\n")`: split at the first CRLFCRLF, if any. -/
def splitOnceDelim : Str → Option (Str × Str)
  | [] => none
  | c :: rest =>
    if delim.isPrefixOf (c :: rest) then some ([], rest.drop 3)
    else (splitOnceDelim rest).map fun p => (c :: p.1, p.2)

/-- `s.split_once(':')`: split at the first colon, if any. -/
def splitOnceColon : Str → Option (Str × Str)
  | [] => none
  | c :: rest =>
    if c = ':' then some ([], rest)
    else (splitOnceColon rest).map fun p => (c :: p.1, p.2)

/-- `s.split("\r\n")`: the list of CRLF-separated pieces (`[""]` on `""`). -/
def splitCRLF : Str → List Str
  | [] => [[]]
  | [c] => [[c]]
  | c :: d :: rest =>
    if c = '\r' ∧ d = '\n' then [] :: splitCRLF rest
    else
      match splitCRLF (d :: rest) with
      | x :: xs => (c :: x) :: xs
      | [] => [[c]]

/-- Worker for `splitWS`; `cur` is the current word, reversed. -/
def splitWSAux (cur : Str) : Str → List Str
  | [] => if cur = [] then [] else [cur.reverse]
  | c :: rest =>
    if isWS c then
      if cur = [] then splitWSAux [] rest else cur.reverse :: splitWSAux [] rest
    else splitWSAux (c :: cur) rest

/-- `s.split_whitespace()`: the maximal whitespace-free words of `s`. -/
def splitWS (s : Str) : List Str := splitWSAux [] s

/-- `s.trim()`: strip leading and trailing whitespace. -/
def trimStr (s : Str) : Str :=
  ((s.dropWhile isWS).reverse.dropWhile isWS).reverse

/-- `Vec::join(" ")` over the modelled strings. -/
def joinSpace : List Str → Str
  | [] => []
  | [w] => w
  | w :: rest => w ++ ' ' :: joinSpace rest

/-- Intercalate CRLF (the shape of a serialized header block). -/
def joinCRLF : List Str → Str
  | [] => []
  | [l] => l
  | l :: rest => l ++ crlf ++ joinCRLF rest

def digitVal (c : Char) : Option Nat :=
  if c.toNat ≥ 48 ∧ c.toNat ≤ 57 then some (c.toNat - 48) else none

def natParseCore : Str → Nat → Option Nat
  | [], acc => some acc
  | c :: rest, acc =>
    match digitVal c with
    | some d => natParseCore rest (acc * 10 + d)
    | none => none

/-- Rust `str::parse::<usize>()`: an optional `+` sign then one or more
ASCII digits (overflow is not modelled; see the header comment). -/
def natParse : Str → Option Nat
  | [] => none
  | '+' :: rest => if rest = [] then none else natParseCore rest 0
  | s => natParseCore s 0

def natToStrAux : Nat → Nat → Str → Str
  | 0, _, acc => acc
  | fuel + 1, n, acc =>
    if n = 0 then acc
    else natToStrAux fuel (n / 10) (Char.ofNat (n % 10 + 48) :: acc)

/-- Decimal rendering of a `Nat` (Rust's `Display` for unsigned integers;
the first argument of the worker is fuel, always sufficient at `n + 1`). -/
def natToStr (n : Nat) : Str :=
  if n = 0 then ['0'] else natToStrAux (n + 1) n []

/-! ## Status registry (`src/http.rs`)

The closed `StatusCode` enum with its `repr(u16)` values, including the
`Unknown = 999` sentinel. -/

inductive StatusCode where
  | Unknown
  | Continue | SwitchingProtocols | Processing | EarlyHints
  | OK | Created | Accepted | NonAuthoritativeInformation | NoContent
  | ResetContent | PartialContent | MultiStatus | AlreadyReported | IMUsed
  | MultipleChoices | MovedPermanently | Found | SeeOther | NotModified
  | UseProxy | Unused | TemporaryRedirect | PermanentRedirect
  | BadRequest | Unauthorized | PaymentRequired | Forbidden | NotFound
  | MethodNotAllowed | NotAcceptable | ProxyAuthenticationRequired
  | RequestTimeout | Conflict | Gone | LengthRequired | PreconditionFailed
  | ContentTooLarge | URLTooLong | UnsupportedMediaType | RangeNotSatisfiable
  | ExpectationFailed | ImATeapot | MisdirectedRequest | UnprocessableContent
  | Locked | FailedDependency | TooEarly | UpgradeRequired
  | PreconditionRequired | TooManyRequests | RequestHeaderFieldsTooLarge
  | UnavailableForLegalReasons
  | InternalServerError | NotImplemented | BadGateway | ServiceUnavailable
  | GatewayTimeout | HTTPVersionNotSupported | VariantAlsoNegotiates
  | InsufficientStorage | LoopDetected | NotExtended
  | NetworkAuthenticationRequired
deriving DecidableEq

/-- The `repr(u16)` discriminant of each variant (`code as u16`). -/
def StatusCode.val : StatusCode → Nat
  | .Unknown => 999
  | .Continue => 100 | .SwitchingProtocols => 101 | .Processing => 102
  | .EarlyHints => 103
  | .OK => 200 | .Created => 201 | .Accepted => 202
  | .NonAuthoritativeInformation => 203 | .NoContent => 204
  | .ResetContent => 205 | .PartialContent => 206 | .MultiStatus => 207
  | .AlreadyReported => 208 | .IMUsed => 226
  | .MultipleChoices => 300 | .MovedPermanently => 301 | .Found => 302
  | .SeeOther => 303 | .NotModified => 304 | .UseProxy => 305
  | .Unused => 306 | .TemporaryRedirect => 307 | .PermanentRedirect => 308
  | .BadRequest => 400 | .Unauthorized => 401 | .PaymentRequired => 402
  | .Forbidden => 403 | .NotFound => 404 | .MethodNotAllowed => 405
  | .NotAcceptable => 406 | .ProxyAuthenticationRequired => 407
  | .RequestTimeout => 408 | .Conflict => 409 | .Gone => 410
  | .LengthRequired => 411 | .PreconditionFailed => 412
  | .ContentTooLarge => 413 | .URLTooLong => 414
  | .UnsupportedMediaType => 415 | .RangeNotSatisfiable => 416
  | .ExpectationFailed => 417 | .ImATeapot => 418
  | .MisdirectedRequest => 421 | .UnprocessableContent => 422
  | .Locked => 423 | .FailedDependency => 424 | .TooEarly => 425
  | .UpgradeRequired => 426 | .PreconditionRequired => 428
  | .TooManyRequests => 429 | .RequestHeaderFieldsTooLarge => 431
  | .UnavailableForLegalReasons => 451
  | .InternalServerError => 500 | .NotImplemented => 501
  | .BadGateway => 502 | .ServiceUnavailable => 503
  | .GatewayTimeout => 504 | .HTTPVersionNotSupported => 505
  | .VariantAlsoNegotiates => 506 | .InsufficientStorage => 507
  | .LoopDetected => 508 | .NotExtended => 510
  | .NetworkAuthenticationRequired => 511

/-- The arms of `StatusCode::parse`'s `match`, in source order: numeric
string literal to variant.  (Note: the source has no `"402"` or `"403"`
arm although the enum defines `PaymentRequired` and `Forbidden`.) -/
def statusParseTable : List (Str × StatusCode) :=
  [ (str "100", .Continue), (str "101", .SwitchingProtocols),
    (str "102", .Processing), (str "103", .EarlyHints),
    (str "200", .OK), (str "201", .Created), (str "202", .Accepted),
    (str "203", .NonAuthoritativeInformation), (str "204", .NoContent),
    (str "205", .ResetContent), (str "206", .PartialContent),
    (str "207", .MultiStatus), (str "208", .AlreadyReported),
    (str "226", .IMUsed),
    (str "300", .MultipleChoices), (str "301", .MovedPermanently),
    (str "302", .Found), (str "303", .SeeOther), (str "304", .NotModified),
    (str "305", .UseProxy), (str "306", .Unused),
    (str "307", .TemporaryRedirect), (str "308", .PermanentRedirect),
    (str "400", .BadRequest), (str "401", .Unauthorized),
    (str "404", .NotFound), (str "405", .MethodNotAllowed),
    (str "406", .NotAcceptable), (str "407", .ProxyAuthenticationRequired),
    (str "410", .Gone), (str "411", .LengthRequired),
    (str "408", .RequestTimeout), (str "409", .Conflict),
    (str "412", .PreconditionFailed), (str "413", .ContentTooLarge),
    (str "414", .URLTooLong), (str "415", .UnsupportedMediaType),
    (str "416", .RangeNotSatisfiable), (str "417", .ExpectationFailed),
    (str "418", .ImATeapot), (str "421", .MisdirectedRequest),
    (str "422", .UnprocessableContent), (str "423", .Locked),
    (str "424", .FailedDependency), (str "425", .TooEarly),
    (str "426", .UpgradeRequired), (str "428", .PreconditionRequired),
    (str "429", .TooManyRequests),
    (str "431", .RequestHeaderFieldsTooLarge),
    (str "451", .UnavailableForLegalReasons),
    (str "500", .InternalServerError), (str "501", .NotImplemented),
    (str "502", .BadGateway), (str "503", .ServiceUnavailable),
    (str "504", .GatewayTimeout), (str "505", .HTTPVersionNotSupported),
    (str "506", .VariantAlsoNegotiates), (str "507", .InsufficientStorage),
    (str "508", .LoopDetected), (str "510", .NotExtended),
    (str "511", .NetworkAuthenticationRequired) ]

/-- `StatusCode::parse` (`src/http.rs`): total; the literal `match` arms
are `statusParseTable` in source order, every other string falls through
to `StatusCode::Unknown`.  (A first-match association-list lookup is
exactly a `match` on disjoint string literals.) -/
def StatusCode.parse (code : Str) : StatusCode :=
  match statusParseTable.find? fun p => p.1 = code with
  | some p => p.2
  | none => .Unknown

/-- `impl Display for StatusCode` (`src/http.rs`): the numeric value. -/
def StatusCode.render (c : StatusCode) : Str := natToStr c.val

/-- `StatusCode::get_status_message` (`src/http.rs`): the canonical
reason phrase of each variant. -/
def StatusCode.message : StatusCode → Str
  | .Continue => str "Continue"
  | .SwitchingProtocols => str "Switching Protocols"
  | .Processing => str "Processing"
  | .EarlyHints => str "Early Hints"
  | .OK => str "OK"
  | .Created => str "Created"
  | .Accepted => str "Accepted"
  | .NonAuthoritativeInformation => str "Non Authoritative Information"
  | .NoContent => str "No Content"
  | .ResetContent => str "Reset Content"
  | .PartialContent => str "Partial Content"
  | .MultiStatus => str "Multi-Status"
  | .AlreadyReported => str "Already Reported"
  | .IMUsed => str "IM Used"
  | .MultipleChoices => str "Multiple Choices"
  | .MovedPermanently => str "Moved Permanently"
  | .Found => str "Found"
  | .SeeOther => str "See Other"
  | .NotModified => str "Not Modified"
  | .UseProxy => str "Use Proxy"
  | .Unused => str "Unused"
  | .TemporaryRedirect => str "Temporary Redirect"
  | .PermanentRedirect => str "Permanent Redirect"
  | .BadRequest => str "Bad Request"
  | .Unauthorized => str "Unauthorized"
  | .PaymentRequired => str "Payment Required"
  | .Forbidden => str "Forbidden"
  | .NotFound => str "Not Found"
  | .MethodNotAllowed => str "Method Not Allowed"
  | .NotAcceptable => str "Not Acceptable"
  | .ProxyAuthenticationRequired => str "Proxy Authentication Required"
  | .RequestTimeout => str "Request Timeout"
  | .Conflict => str "Conflict"
  | .Gone => str "Gone"
  | .LengthRequired => str "Length Required"
  | .PreconditionFailed => str "Precondition Failed"
  | .ContentTooLarge => str "Content Too Large"
  | .URLTooLong => str "URL Too Long"
  | .UnsupportedMediaType => str "Unsupported Media Type"
  | .RangeNotSatisfiable => str "Range Not Satisfiable"
  | .ExpectationFailed => str "Expectation Failed"
  | .ImATeapot => str "I'm a teapot"
  | .MisdirectedRequest => str "Misdirected Request"
  | .UnprocessableContent => str "Unprocessable Content"
  | .Locked => str "Locked"
  | .FailedDependency => str "Failed Dependency"
  | .TooEarly => str "Too Early"
  | .UpgradeRequired => str "Upgrade Required"
  | .PreconditionRequired => str "Precondition Required"
  | .TooManyRequests => str "Too Many Requests"
  | .RequestHeaderFieldsTooLarge => str "Request Header Fields Too Large"
  | .UnavailableForLegalReasons => str "Unavailable For Legal Reasons"
  | .InternalServerError => str "Internal Server Error"
  | .NotImplemented => str "Not Implemented"
  | .BadGateway => str "Bad Gateway"
  | .ServiceUnavailable => str "Service Unavailable"
  | .GatewayTimeout => str "Gateway Timeout"
  | .HTTPVersionNotSupported => str "HTTP Version Not Supported"
  | .VariantAlsoNegotiates => str "Variant Also Negotiates"
  | .InsufficientStorage => str "Insufficient Storage"
  | .LoopDetected => str "Loop Detected"
  | .NotExtended => str "Not Extended"
  | .NetworkAuthenticationRequired => str "Network Authentication Required"
  | .Unknown => str "Unknown"

/-! ## Header collection (`src/http/headers.rs`)

`HeaderKey` keeps the original casing; identity (its `PartialEq`/`Hash`
impls) is the lowercased form. -/

structure HeaderKey where
  original : Str
deriving DecidableEq

/-- The lowercased identity of a key (`HeaderKey::new` precomputes it). -/
def HeaderKey.lower (k : HeaderKey) : Str := lowerStr k.original

/-- `PartialEq for HeaderKey`: equality of lowercased forms. -/
def hkEq (k1 k2 : HeaderKey) : Bool := k1.lower = k2.lower

/-- `Headers` pairs the `HashMap<HeaderKey, String>` (modelled as an
association list under `hkEq`) with the first-insertion `order` vector. -/
structure Headers where
  map : List (HeaderKey × Str)
  order : List HeaderKey
deriving DecidableEq

def Headers.new : Headers := ⟨[], []⟩

/-- `HashMap::get` under the key's lowercase identity. -/
def mapGet (m : List (HeaderKey × Str)) (k : HeaderKey) : Option Str :=
  (m.find? fun p => hkEq p.1 k).map (·.2)

/-- `HashMap::insert`: replace the value of an equal key (keeping the
stored key, as Rust's `HashMap` does), else add the binding. -/
def mapInsert (m : List (HeaderKey × Str)) (k : HeaderKey) (v : Str) :
    List (HeaderKey × Str) :=
  match m with
  | [] => [(k, v)]
  | (k', v') :: rest =>
    if hkEq k' k then (k', v) :: rest else (k', v') :: mapInsert rest k v

/-- `Headers::insert`: push onto `order` on first insertion, then insert
into the map. -/
def Headers.insert (h : Headers) (key value : Str) : Headers :=
  let k : HeaderKey := ⟨key⟩
  { map := mapInsert h.map k value
    order := if h.order.any fun k' => hkEq k' k then h.order else h.order ++ [k] }

/-- `Headers::get`: case-insensitive lookup. -/
def Headers.get (h : Headers) (key : Str) : Option Str :=
  mapGet h.map ⟨key⟩

/-- Worker for `Headers::parse`: each CRLF-separated line is split at its
first colon (none ⇒ `400 Bad Request`), the value trimmed, and the pair
inserted in order. -/
def Headers.parseLines (h : Headers) : List Str → Except StatusCode Headers
  | [] => .ok h
  | line :: rest =>
    match splitOnceColon line with
    | none => .error .BadRequest
    | some (k, v) => Headers.parseLines (h.insert k (trimStr v)) rest

/-- `Headers::parse`: split the raw block on CRLF and insert each line. -/
def Headers.parse (s : Str) : Except StatusCode Headers :=
  Headers.parseLines Headers.new (splitCRLF s)

/-- `impl Display for Headers`: for each key in insertion order emit
`Original-Name: value\r\n`.  (The `self.map[key]` index cannot miss under
the insert-maintained invariant; an absent key renders as empty.) -/
def Headers.render (h : Headers) : Str :=
  (h.order.map fun k => k.original ++ str ": " ++ (mapGet h.map k).getD [] ++ crlf).flatten

/-! ## Request method (`src/http/request.rs`) -/

inductive Method where
  | CONNECT | GET | POST | PUT | PATCH | DELETE | HEAD | OPTIONS | TRACE
deriving DecidableEq

/-- `Method::parse`. -/
def Method.parse (s : Str) : Option Method :=
  if s = str "GET" then some .GET
  else if s = str "PUT" then some .PUT
  else if s = str "HEAD" then some .HEAD
  else if s = str "POST" then some .POST
  else if s = str "PATCH" then some .PATCH
  else if s = str "DELETE" then some .DELETE
  else if s = str "OPTIONS" then some .OPTIONS
  else if s = str "CONNECT" then some .CONNECT
  else if s = str "TRACE" then some .TRACE
  else none

/-- `impl Display for Method`. -/
def Method.render : Method → Str
  | .CONNECT => str "CONNECT"
  | .GET => str "GET"
  | .POST => str "POST"
  | .PUT => str "PUT"
  | .PATCH => str "PATCH"
  | .DELETE => str "DELETE"
  | .HEAD => str "HEAD"
  | .OPTIONS => str "OPTIONS"
  | .TRACE => str "TRACE"

/-! ## The header-read loop shared by `Request::parse` and
`Response::parse`

Both parses start with

```text
while !tmp.windows(delim.len()).any(|win| win == delim.as_bytes()) {
    let n = input.read(&mut tmp)?;
    if n == 0 { break; }
    buf.extend_from_slice(&tmp[..n]);
}
```

where `tmp` is a fixed scratch buffer (`[0u8; 1024]` for requests,
`[0u8; 1024 * 4]` for responses) and `buf` the accumulation buffer.  A
`read` that delivers chunk `c` overwrites the first `c.length` bytes of
`tmp`, leaving the stale tail in place.  Note the loop condition scans
`tmp`, not `buf`. -/

/-- Does the buffer contain `\r\n\r\n` at any position?  This is
`tmp.windows(4).any(|win| win == b"\r\n\r\n")`. -/
def hasDelim : Str → Bool
  | [] => false
  | c :: rest => delim.isPrefixOf (c :: rest) || hasDelim rest

/-- The initial all-zero scratch buffer of a given size. -/
def tmpInit (size : Nat) : Str := List.replicate size (Char.ofNat 0)

/-- The header-read loop.  Returns the accumulation buffer at exit and the
chunks the loop did not consume.  The loop exits when the scratch buffer
`tmp` contains the delimiter or a read returns 0 bytes (modelled by the
chunk list running out). -/
def readLoop (tmp buf : Str) : List Str → Str × List Str
  | [] => (buf, [])
  | c :: rest =>
    if hasDelim tmp then (buf, c :: rest)
    else readLoop (c ++ tmp.drop c.length) (buf ++ c) rest

/-- The body-read loop shared (in shape) by both parses: keep appending
whole chunks while the body is shorter than the expected length; stop on
end-of-stream. -/
def readBody (body : Str) (contentLength : Nat) : List Str → Str
  | [] => body
  | c :: rest =>
    if body.length < contentLength then readBody (body ++ c) contentLength rest
    else body

/-! ## `Request` (`src/http/request.rs`) -/

structure Request where
  method : Method
  resource : Str
  version : Str
  headers : Headers
  body : Str
deriving DecidableEq

/-- The logic of `Request::parse` after the header-read loop: `buf` is the
accumulated bytes, `rest` the chunks the loop left unread.  (UTF-8
decoding of `buf` is elided; see the header comment.) -/
def Request.parseRest (buf : Str) (rest : List Str) : Except StatusCode Request := do
  let (hdrSection, bodyStart) ←
    match splitOnceDelim buf with
    | some p => pure p
    | none => .error .BadRequest
  let (head, headerBlock) ←
    match splitOnceCRLF hdrSection with
    | some p => pure p
    | none => .error .BadRequest
  let toks := splitWS head
  let method ←
    match toks[0]? with
    | some m =>
      match Method.parse m with
      | some m => pure m
      | none => .error .MethodNotAllowed
    | none => .error .BadRequest
  let resource ←
    match toks[1]? with
    | some r => pure r
    | none => .error .BadRequest
  let version ←
    match toks[2]? with
    | some v => pure v
    | none => .error .BadRequest
  let headers ← Headers.parse headerBlock
  let contentLength ←
    match headers.get (str "Content-Length") with
    | some len =>
      match natParse len with
      | some n => pure n
      | none => .error .BadRequest
    | none => pure 0
  let body := readBody bodyStart contentLength rest
  pure { method, resource, version, headers, body }

/-- `Request::parse` on a chunked source: run the header-read loop with
the 1024-byte scratch buffer, then the rest of the parse. -/
def Request.parseChunks (chunks : List Str) : Except StatusCode Request :=
  let (buf, rest) := readLoop (tmpInit 1024) [] chunks
  Request.parseRest buf rest

/-- `impl Display for Request`:
`"{method} {resource} {version}\r\n{headers}\r\n{body}"`. -/
def Request.render (r : Request) : Str :=
  r.method.render ++ ' ' :: r.resource ++ ' ' :: r.version ++ crlf ++
    r.headers.render ++ crlf ++ r.body

/-! ## `Response` (`src/http/response.rs`)

`Response::parse` returns `io::Error` values carrying a message string;
modelled as `Except Str`.  `Response::parse_status_code` is the file's own
copy of the numeric-string table: the same arms in the same order as
`StatusCode::parse` (again without `"402"`/`"403"`), but returning
`Option<StatusCode>` with `None` for unknown codes. -/

def Response.parseStatusCode (code : Str) : Option StatusCode :=
  (statusParseTable.find? fun p => p.1 = code).map (·.2)

structure Response where
  version : Str
  status_code : Option StatusCode
  status_message : Str
  headers : Headers
  body : Str
deriving DecidableEq

/-- The `usize::MAX` stand-in used when a response has no
`Content-Length`: the body loop then only stops at end-of-stream.  Any
bound larger than every modelled stream works; the loop compares
`body.len() < contentLength`. -/
def usizeMax : Nat := 2 ^ 64 - 1

/-- The logic of `Response::parse` after the header-read loop (UTF-8
lossy decoding of `buf` elided). -/
def Response.parseRest (buf : Str) (rest : List Str) : Except Str Response := do
  let (hdrSection, bodyStart) ←
    match splitOnceDelim buf with
    | some p => pure p
    | none => .error (str "Invalid HTTP response")
  let (head, headerBlock) ←
    match splitOnceCRLF hdrSection with
    | some p => pure p
    | none => .error (str "Invalid HTTP headers in response")
  let toks := splitWS head
  let version ←
    match toks[0]? with
    | some v => pure v
    | none => .error (str "Invalid HTTP version in response")
  let status_code ←
    match toks[1]? with
    | some c => pure (Response.parseStatusCode c)
    | none => .error (str "Invalid HTTP status code in response")
  let status_message := joinSpace (toks.drop 2)
  let headers ←
    match Headers.parse headerBlock with
    | .ok h => pure h
    | .error _ => .error (str "Invalid headers")
  let contentLength ←
    match headers.get (str "Content-Length") with
    | some len =>
      match natParse len with
      | some n => pure n
      | none => .error (str "Error parsing content length")
    | none => pure usizeMax
  let body := readBody bodyStart contentLength rest
  pure { version, status_code, status_message, headers, body }

/-- `Response::parse` on a chunked source: header-read loop with the
4096-byte scratch buffer, then the rest of the parse. -/
def Response.parseChunks (chunks : List Str) : Except Str Response :=
  let (buf, rest) := readLoop (tmpInit 4096) [] chunks
  Response.parseRest buf rest

/-- `impl Display for Response`: the status code prints as its numeric
value, with `None` (an unrecognized code) printing as the fixed `999`. -/
def Response.render (r : Response) : Str :=
  r.version ++ ' ' :: natToStr ((r.status_code.map StatusCode.val).getD 999) ++
    ' ' :: r.status_message ++ crlf ++ r.headers.render ++ crlf ++ r.body

/-! ## Base64 (the `base64` crate's `BASE64_STANDARD` engine)

`proxy.rs` computes the expected credential token as
`BASE64_STANDARD.encode(user)`: the RFC 4648 standard alphabet with `=`
padding. -/

def b64Alphabet : Str :=
  str "ABCDEFGHIJKLMNOPQRSTUVWXYZabcdefghijklmnopqrstuvwxyz0123456789+/"

def b64Char (n : Nat) : Char := b64Alphabet.getD n 'A'

/-- Standard base64 with padding over a byte list. -/
def base64Encode : List Nat → Str
  | a :: b :: c :: rest =>
    let n := a * 65536 + b * 256 + c
    b64Char (n / 262144 % 64) :: b64Char (n / 4096 % 64) ::
      b64Char (n / 64 % 64) :: b64Char (n % 64) :: base64Encode rest
  | [a, b] =>
    let n := a * 65536 + b * 256
    [b64Char (n / 262144 % 64), b64Char (n / 4096 % 64),
      b64Char (n / 64 % 64), '=']
  | [a] =>
    let n := a * 65536
    [b64Char (n / 262144 % 64), b64Char (n / 4096 % 64), '=', '=']
  | [] => []

/-- `BASE64_STANDARD.encode` of an ASCII string's bytes. -/
def base64Str (s : Str) : Str := base64Encode (s.map Char.toNat)

/-! ## Response builder

`proxy.rs`, `cli.rs` and `main.rs` construct outgoing responses through a
fluent `ResponseBuilder`, but the snapshot of `src/http` in the sources
holds an earlier revision without it. -/

/-- Modelled from the spec: `ResponseBuilder` (§4.4), whose definition is
not among the source files (only its callers are).  Fields are set
fluently; unset fields take defaults at `build` time. -/
structure ResponseBuilder where
  version : Option Str := none
  status_code : Option StatusCode := none
  status_message : Option Str := none
  headers : Option Headers := none
  body : Option Str := none

def ResponseBuilder.new : ResponseBuilder := {}

def ResponseBuilder.addStatusCode (b : ResponseBuilder) (c : StatusCode) :
    ResponseBuilder := { b with status_code := some c }

def ResponseBuilder.addStatusMessage (b : ResponseBuilder) (m : Str) :
    ResponseBuilder := { b with status_message := some m }

def ResponseBuilder.addHeader (b : ResponseBuilder) (k v : Str) :
    ResponseBuilder :=
  { b with headers := some ((b.headers.getD Headers.new).insert k v) }

def ResponseBuilder.addBody (b : ResponseBuilder) (body : Str) :
    ResponseBuilder := { b with body := some body }

/-- Modelled from the spec: `ResponseBuilder::build` (§4.4) — fails with
"missing status code" when no code was set; defaults are version
`HTTP/1.1`, the registry's canonical phrase as status message, empty
headers and body; auto-populates `Content-Length` from a non-empty body
when that header was not explicitly set. -/
def ResponseBuilder.build (b : ResponseBuilder) : Except Str Response :=
  match b.status_code with
  | none => .error (str "missing status code")
  | some code =>
    let headers := b.headers.getD Headers.new
    let body := b.body.getD []
    let headers :=
      if body ≠ [] ∧ headers.get (str "Content-Length") = none then
        headers.insert (str "Content-Length") (natToStr body.length)
      else headers
    .ok { version := b.version.getD (str "HTTP/1.1")
          status_code := some code
          status_message := b.status_message.getD code.message
          headers, body }

def Response.default : Response := ⟨[], none, [], Headers.new, []⟩

/-- `.build().unwrap()`: every call site sets a status code first, so the
error branch is unreachable there. -/
def ResponseBuilder.buildUnwrap (b : ResponseBuilder) : Response :=
  match b.build with
  | .ok r => r
  | .error _ => Response.default

/-! ## The per-connection handler (`src/proxy.rs`)

`handle_connection` is driven by the sequence of outcomes of
`Request::parse` on the downstream socket; the socket itself is abstract,
so the handler is modelled as a function of that outcome list, returning
the responses it writes downstream (in order) and how it leaves the
connection. -/

/-- How `handle_connection` leaves the connection. -/
inductive ConnResult where
  /-- Returned without writing anything (the closed-stream hack path). -/
  | silent
  /-- Wrote the error response for a failed parse and returned. -/
  | closedAfterError
  /-- Wrote `405 Method Not Allowed` for a non-CONNECT method and
  returned. -/
  | closedNotConnect
  /-- Reached `TcpStream::connect` on the authorized CONNECT request's
  resource. -/
  | dial (target : Str)
deriving DecidableEq

/-- The `ResponseBuilder::new().add_status_code(code)
.add_header("Connection", "close").build().unwrap()` responses of
`proxy.rs`. -/
def connectionCloseResponse (code : StatusCode) : Response :=
  (ResponseBuilder.new.addStatusCode code
    |>.addHeader (str "Connection") (str "close")).buildUnwrap

/-- The 407 challenge written on an authorization failure. -/
def challenge407 : Response :=
  (ResponseBuilder.new.addStatusCode .ProxyAuthenticationRequired
    |>.addHeader (str "Proxy-Authenticate") (str "Basic realm=\"rox\"")).buildUnwrap

/-- The credential token `handle_connection` extracts from a request: the
`Proxy-Authorization` header must be present, start with `Basic`, and the
token is its second whitespace-delimited word
(`auth.split_whitespace().skip(1).next()`). -/
def authToken (req : Request) : Option Str :=
  match req.headers.get (str "Proxy-Authorization") with
  | some a => if (str "Basic").isPrefixOf a then ((splitWS a).drop 1).head? else none
  | none => none

/-- The part of `handle_connection` after the auth loop breaks: reject a
non-CONNECT method with `405` + `Connection: close`, otherwise dial the
request's resource. -/
def afterAuth (req : Request) : List Response × ConnResult :=
  if req.method ≠ .CONNECT then
    ([connectionCloseResponse .MethodNotAllowed], .closedNotConnect)
  else ([], .dial req.resource)

/-- `handle_connection` (`src/proxy.rs`) as a function of the successive
`Request::parse` outcomes.  An exhausted outcome list stands for the
downstream stream closing. -/
def handleConnection (user : Option Str) :
    List (Except StatusCode Request) → List Response × ConnResult
  | [] => ([], .silent)
  | .error code :: _ =>
    if code = .Unknown then ([], .silent)
    else ([connectionCloseResponse code], .closedAfterError)
  | .ok req :: rest =>
    match user with
    | none => afterAuth req
    | some u =>
      let expected := base64Str u
      match authToken req with
      | some tok =>
        if tok = expected then afterAuth req
        else
          let (writes, res) := handleConnection user rest
          (challenge407 :: writes, res)
      | none =>
        let (writes, res) := handleConnection user rest
        (challenge407 :: writes, res)

/-- Modelled from the spec: the async `Request::parse` revision that
`proxy.rs` awaits is not among the source files (the snapshot holds the
earlier blocking revision).  Per §4.5/§7 a parse failure that indicates
"stream closed / no data" — the connection closing before any request
bytes — is the outcome the handler must swallow silently, and `proxy.rs`
recognises it as `StatusCode::Unknown`. -/
def closedStreamParse : Except StatusCode Request := .error .Unknown

/-! ## Definitions used by the round-trip statements -/

/-- A nonempty whitespace-free token. -/
def tokenClean (s : Str) : Prop := s ≠ [] ∧ ∀ c ∈ s, isWS c = false

instance (s : Str) : Decidable (tokenClean s) := by
  unfold tokenClean
  infer_instance

/-- The `Headers` value a list of (name, value) pairs with pairwise
lowercase-distinct names builds: entries and order in list order. -/
def headersOf (hl : List (Str × Str)) : Headers :=
  ⟨hl.map fun p => (⟨p.1⟩, p.2), hl.map fun p => (⟨p.1⟩ : HeaderKey)⟩

/-- The serialized form of one header pair, without its CRLF. -/
def hdrLine (p : Str × Str) : Str := p.1 ++ ':' :: ' ' :: p.2

/-- Well-formedness of a header pair list for exact round-tripping:
nonempty names free of CR, LF and colons; values free of CR and LF with
no leading or trailing whitespace; names pairwise distinct
case-insensitively. -/
def cleanHeaderList (hl : List (Str × Str)) : Prop :=
  hl ≠ [] ∧
  (∀ p ∈ hl, p.1 ≠ [] ∧ (∀ c ∈ p.1, c ≠ '\r' ∧ c ≠ '\n' ∧ c ≠ ':')) ∧
  (∀ p ∈ hl, (∀ c ∈ p.2, c ≠ '\r' ∧ c ≠ '\n') ∧ p.2.dropWhile isWS = p.2 ∧
    p.2.reverse.dropWhile isWS = p.2.reverse) ∧
  (hl.map fun p => lowerStr p.1).Pairwise (· ≠ ·)

/-- The wire bytes `Request::fmt` produces from the given components. -/
def reqWire (m : Method) (res ver : Str) (hl : List (Str × Str))
    (body : Str) : Str :=
  Method.render m ++ ' ' :: res ++ ' ' :: ver ++ crlf ++
    (hl.map fun p => hdrLine p ++ crlf).flatten ++ crlf ++ body

/-- The start line of a request serialization. -/
def reqStartLine (m : Method) (res ver : Str) : Str :=
  Method.render m ++ ' ' :: res ++ ' ' :: ver

/-- The wire bytes `Response::fmt` produces when the status code is the
recognized `sc` (rendered as `codeStr`) and the status message is the
given word list. -/
def respWire (ver codeStr : Str) (msgWords : List Str)
    (hl : List (Str × Str)) (body : Str) : Str :=
  ver ++ ' ' :: codeStr ++ ' ' :: joinSpace msgWords ++ crlf ++
    (hl.map fun p => hdrLine p ++ crlf).flatten ++ crlf ++ body

/-- The status line of a response serialization (note: an empty word list
leaves a trailing space before the CRLF). -/
def respStartLine (ver codeStr : Str) (msgWords : List Str) : Str :=
  ver ++ ' ' :: codeStr ++ ' ' :: joinSpace msgWords

/-! ## Lemmas: locating the first CRLF / CRLFCRLF in serialized output -/

theorem isPrefixOf_crlf_of_head_ne {c : Char} {s : Str} (h : c ≠ '\r') :
    crlf.isPrefixOf (c :: s) = false := by
  simp [crlf, List.isPrefixOf_cons₂, Ne.symm h]

theorem isPrefixOf_delim_of_head_ne {c : Char} {s : Str} (h : c ≠ '\r') :
    delim.isPrefixOf (c :: s) = false := by
  simp [delim, List.isPrefixOf_cons₂, Ne.symm h]

theorem splitOnceDelim_delim_append (s : Str) :
    splitOnceDelim (delim ++ s) = some ([], s) := by
  simp [delim, splitOnceDelim, List.isPrefixOf_cons₂]

theorem splitOnceCRLF_crlf_append (s : Str) :
    splitOnceCRLF (crlf ++ s) = some ([], s) := by
  simp [crlf, splitOnceCRLF, List.isPrefixOf_cons₂]

/-- Skipping a CR-free piece: the first delimiter occurrence lies past
it. -/
theorem splitOnceDelim_append_of_noCR {t : Str} (s : Str) (h : '\r' ∉ t) :
    splitOnceDelim (t ++ s) =
      (splitOnceDelim s).map fun p => (t ++ p.1, p.2) := by
  induction t with
  | nil =>
    simp only [List.nil_append]
    cases splitOnceDelim s <;> simp
  | cons c t ih =>
    have hc : c ≠ '\r' := fun hc => h (hc ▸ List.mem_cons_self c t)
    have ht : '\r' ∉ t := fun hm => h (List.mem_cons_of_mem c hm)
    simp only [List.cons_append, splitOnceDelim,
      isPrefixOf_delim_of_head_ne hc, Bool.false_eq_true, if_false,
      List.append_eq]
    rw [ih ht]
    cases splitOnceDelim s <;> simp

theorem splitOnceCRLF_append_of_noCR {t : Str} (s : Str) (h : '\r' ∉ t) :
    splitOnceCRLF (t ++ s) =
      (splitOnceCRLF s).map fun p => (t ++ p.1, p.2) := by
  induction t with
  | nil =>
    simp only [List.nil_append]
    cases splitOnceCRLF s <;> simp
  | cons c t ih =>
    have hc : c ≠ '\r' := fun hc => h (hc ▸ List.mem_cons_self c t)
    have ht : '\r' ∉ t := fun hm => h (List.mem_cons_of_mem c hm)
    simp only [List.cons_append, splitOnceCRLF,
      isPrefixOf_crlf_of_head_ne hc, Bool.false_eq_true, if_false,
      List.append_eq]
    rw [ih ht]
    cases splitOnceCRLF s <;> simp

/-- A CR-free string contains no CRLF at all. -/
theorem splitOnceCRLF_eq_none_of_noCR {t : Str} (h : '\r' ∉ t) :
    splitOnceCRLF t = none := by
  have := splitOnceCRLF_append_of_noCR (t := t) [] h
  simpa [splitOnceCRLF] using this

/-- Passing one CRLF that is not immediately followed by another. -/
theorem splitOnceDelim_crlf_append {s : Str} (h : crlf.isPrefixOf s = false) :
    splitOnceDelim (crlf ++ s) =
      (splitOnceDelim s).map fun p => (crlf ++ p.1, p.2) := by
  have h4 : delim.isPrefixOf ('\r' :: '\n' :: s) = false := by
    simpa [delim, crlf, List.isPrefixOf_cons₂] using h
  have h2 : delim.isPrefixOf ('\n' :: s) = false :=
    isPrefixOf_delim_of_head_ne (by decide)
  show splitOnceDelim ('\r' :: '\n' :: s) = _
  simp only [splitOnceDelim, h4, Bool.false_eq_true, if_false, h2]
  cases splitOnceDelim s <;> simp [crlf]

theorem joinCRLF_cons_cons (a b : Str) (l : List Str) :
    joinCRLF (a :: b :: l) = a ++ crlf ++ joinCRLF (b :: l) := rfl

/-- A joined block of nonempty CR-free pieces starts with a non-CR
character, so no CRLF can be a prefix of it (even with anything
appended). -/
theorem joinCRLF_head_shape {q : Str} (rest : List Str) (tail : Str)
    (hqne : q ≠ []) (hqCR : '\r' ∉ q) :
    crlf.isPrefixOf (joinCRLF (q :: rest) ++ tail) = false := by
  obtain ⟨qc, q', rfl⟩ : ∃ qc q', q = qc :: q' := by
    cases q with
    | nil => exact absurd rfl hqne
    | cons qc q' => exact ⟨qc, q', rfl⟩
  have hqc : qc ≠ '\r' := fun hqc => hqCR (hqc ▸ List.mem_cons_self qc q')
  obtain ⟨t, ht⟩ : ∃ t, joinCRLF ((qc :: q') :: rest) ++ tail = qc :: t := by
    cases rest with
    | nil => exact ⟨q' ++ tail, by simp [joinCRLF]⟩
    | cons r rs =>
      exact ⟨q' ++ crlf ++ joinCRLF (r :: rs) ++ tail, by
        simp [joinCRLF_cons_cons]⟩
  rw [ht]
  exact isPrefixOf_crlf_of_head_ne hqc

/-- The first CRLFCRLF of a serialized header section (CR-free, nonempty
pieces interleaved with single CRLFs) followed by `delim ++ body` sits
exactly at the junction. -/
theorem splitOnceDelim_joinCRLF (pieces : List Str) (body : Str)
    (hne : pieces ≠ [])
    (hp : ∀ p ∈ pieces, p ≠ [] ∧ '\r' ∉ p) :
    splitOnceDelim (joinCRLF pieces ++ delim ++ body) =
      some (joinCRLF pieces, body) := by
  induction pieces with
  | nil => exact absurd rfl hne
  | cons p rest ih =>
    cases rest with
    | nil =>
      obtain ⟨-, hCR⟩ := hp p (List.mem_cons_self p [])
      rw [show joinCRLF [p] = p from rfl, List.append_assoc,
        splitOnceDelim_append_of_noCR _ hCR, splitOnceDelim_delim_append]
      simp
    | cons q rest' =>
      obtain ⟨-, hCR⟩ := hp p (List.mem_cons_self p _)
      obtain ⟨hqne, hqCR⟩ := hp q (List.mem_cons_of_mem p (List.mem_cons_self q _))
      have hq : ∀ x ∈ q :: rest', x ≠ [] ∧ '\r' ∉ x := fun x hx =>
        hp x (List.mem_cons_of_mem p hx)
      have hrec := ih (by simp) hq
      have htail := joinCRLF_head_shape rest' (delim ++ body) hqne hqCR
      have hshape : joinCRLF (p :: q :: rest') ++ delim ++ body =
          p ++ (crlf ++ (joinCRLF (q :: rest') ++ delim ++ body)) := by
        rw [joinCRLF_cons_cons]
        simp [List.append_assoc]
      rw [hshape, splitOnceDelim_append_of_noCR _ hCR]
      rw [show joinCRLF (q :: rest') ++ delim ++ body =
        joinCRLF (q :: rest') ++ (delim ++ body) from by simp] at hrec ⊢
      rw [splitOnceDelim_crlf_append (by simpa using htail), hrec]
      simp [joinCRLF_cons_cons]

/-- The first CRLF of a joined block separates its first piece. -/
theorem splitOnceCRLF_joinCRLF (p : Str) (pieces : List Str)
    (hCR : '\r' ∉ p) (hne : pieces ≠ []) :
    splitOnceCRLF (joinCRLF (p :: pieces)) = some (p, joinCRLF pieces) := by
  cases pieces with
  | nil => exact absurd rfl hne
  | cons q rs =>
    rw [joinCRLF_cons_cons, List.append_assoc,
      splitOnceCRLF_append_of_noCR _ hCR, splitOnceCRLF_crlf_append]
    simp

/-- `split("\r\n")` on a CR-free string yields that single piece. -/
theorem splitCRLF_of_noCR {p : Str} (h : '\r' ∉ p) : splitCRLF p = [p] := by
  induction p with
  | nil => rfl
  | cons c t ih =>
    have hc : c ≠ '\r' := fun hc => h (hc ▸ List.mem_cons_self c t)
    have ht : '\r' ∉ t := fun hm => h (List.mem_cons_of_mem c hm)
    cases t with
    | nil => rfl
    | cons d rest =>
      show splitCRLF (c :: d :: rest) = _
      rw [splitCRLF, if_neg (by simp [hc]), ih ht]

/-- `split("\r\n")` peels a leading CR-free piece and its CRLF. -/
theorem splitCRLF_block {p : Str} (s : Str) (h : '\r' ∉ p) :
    splitCRLF (p ++ crlf ++ s) = p :: splitCRLF s := by
  induction p with
  | nil =>
    show splitCRLF ('\r' :: '\n' :: s) = _
    rw [splitCRLF, if_pos ⟨rfl, rfl⟩]
  | cons c p' ih =>
    have hc : c ≠ '\r' := fun hc => h (hc ▸ List.mem_cons_self c p')
    have hp' : '\r' ∉ p' := fun hm => h (List.mem_cons_of_mem c hm)
    obtain ⟨d, t, hdt⟩ : ∃ d t, p' ++ crlf ++ s = d :: t := by
      cases hp : p' ++ crlf ++ s with
      | nil => simp [crlf] at hp
      | cons d t => exact ⟨d, t, rfl⟩
    have : (c :: p') ++ crlf ++ s = c :: d :: t := by simp [← hdt]
    rw [this, splitCRLF, if_neg (by simp [hc]), ← hdt, ih hp']

/-- `split("\r\n")` inverts CRLF-joining of CR-free pieces. -/
theorem splitCRLF_joinCRLF (pieces : List Str) (hne : pieces ≠ [])
    (hp : ∀ p ∈ pieces, '\r' ∉ p) :
    splitCRLF (joinCRLF pieces) = pieces := by
  induction pieces with
  | nil => exact absurd rfl hne
  | cons p rest ih =>
    cases rest with
    | nil => exact splitCRLF_of_noCR (hp p (List.mem_cons_self p []))
    | cons q rs =>
      rw [joinCRLF_cons_cons, splitCRLF_block _ (hp p (List.mem_cons_self p _)),
        ih (by simp) fun x hx => hp x (List.mem_cons_of_mem p hx)]

/-! ## Lemmas: `split_whitespace` on serialized start lines -/

theorem splitWSAux_word {w : Str} (cur rest : Str)
    (hw : ∀ c ∈ w, isWS c = false) :
    splitWSAux cur (w ++ rest) = splitWSAux (w.reverse ++ cur) rest := by
  induction w generalizing cur with
  | nil => rfl
  | cons c w' ih =>
    have hc := hw c (List.mem_cons_self c w')
    have hw' : ∀ x ∈ w', isWS x = false := fun x hx => hw x (List.mem_cons_of_mem c hx)
    show splitWSAux cur (c :: (w' ++ rest)) = _
    rw [splitWSAux, hc]
    simp only [Bool.false_eq_true, if_false, ih (c :: cur) hw']
    simp

theorem splitWS_word_append {w : Str} (s : Str) (hw : tokenClean w) :
    splitWS (w ++ ' ' :: s) = w :: splitWS s := by
  obtain ⟨hne, hcl⟩ := hw
  have h1 := splitWSAux_word (w := w) [] (' ' :: s) hcl
  simp only [List.append_nil] at h1
  rw [splitWS, h1, splitWSAux]
  rw [if_pos (show isWS ' ' = true by decide),
    if_neg (show ¬w.reverse = [] from fun h => hne (by simpa using h)),
    List.reverse_reverse]
  rfl

theorem splitWS_word {w : Str} (hw : tokenClean w) : splitWS w = [w] := by
  obtain ⟨hne, hcl⟩ := hw
  have h1 := splitWSAux_word (w := w) [] [] hcl
  simp only [List.append_nil] at h1
  rw [splitWS, h1]
  show (if w.reverse = [] then [] else [w.reverse.reverse]) = [w]
  rw [if_neg (show ¬w.reverse = [] from fun h => hne (by simpa using h)),
    List.reverse_reverse]

theorem splitWS_joinSpace (ws : List Str) (h : ∀ w ∈ ws, tokenClean w) :
    splitWS (joinSpace ws) = ws := by
  induction ws with
  | nil => rfl
  | cons w rest ih =>
    cases rest with
    | nil => exact splitWS_word (h w (List.mem_cons_self w []))
    | cons q rs =>
      rw [show joinSpace (w :: q :: rs) = w ++ ' ' :: joinSpace (q :: rs) from rfl,
        splitWS_word_append _ (h w (List.mem_cons_self w _)),
        ih fun x hx => h x (List.mem_cons_of_mem w hx)]

/-! ## Lemmas: header line parsing -/

theorem trimStr_space_cons {v : Str} (h1 : v.dropWhile isWS = v)
    (h2 : v.reverse.dropWhile isWS = v.reverse) : trimStr (' ' :: v) = v := by
  rw [trimStr, List.dropWhile_cons_of_pos (by decide), h1, h2, List.reverse_reverse]

theorem splitOnceColon_append {n : Str} (v : Str) (h : ':' ∉ n) :
    splitOnceColon (n ++ ':' :: v) = some (n, v) := by
  induction n with
  | nil => simp [splitOnceColon]
  | cons c n' ih =>
    have hc : c ≠ ':' := fun hc => h (hc ▸ List.mem_cons_self c n')
    have hn' : ':' ∉ n' := fun hm => h (List.mem_cons_of_mem c hm)
    show splitOnceColon (c :: (n' ++ ':' :: v)) = _
    rw [splitOnceColon, if_neg hc, ih hn']
    rfl

/-! ## Lemmas: the `Method` table -/

theorem Method.parse_render (m : Method) : Method.parse (Method.render m) = some m := by
  cases m <;> rfl

theorem Method.render_tokenClean (m : Method) : tokenClean (Method.render m) := by
  cases m <;> exact ⟨by decide, by decide⟩

/-! ## Lemmas: the header collection -/

theorem hkEq_refl (k : HeaderKey) : hkEq k k = true := by simp [hkEq]

theorem hkEq_iff {k q : HeaderKey} : hkEq k q = true ↔ k.lower = q.lower := by
  simp [hkEq]

theorem hkEq_false_of_ne {k q : HeaderKey} (h : k.lower ≠ q.lower) :
    hkEq k q = false := by
  simp [hkEq, h]

/-- Inserting a key that matches nothing in the map appends. -/
theorem mapInsert_append {m : List (HeaderKey × Str)} {k : HeaderKey} (v : Str)
    (h : (m.find? fun q => hkEq q.1 k) = none) :
    mapInsert m k v = m ++ [(k, v)] := by
  induction m with
  | nil => rfl
  | cons e rest ih =>
    rw [List.find?_cons] at h
    match he : hkEq e.1 k with
    | true => rw [he] at h; cases h
    | false =>
      rw [he] at h
      rw [mapInsert, if_neg (by simp [he]), ih h]
      rfl

/-- One `Headers.insert` of a fresh name appends to both components. -/
theorem Headers.insert_fresh {h : Headers} {name : Str} (value : Str)
    (ho : (h.order.any fun k => hkEq k ⟨name⟩) = false)
    (hm : (h.map.find? fun q => hkEq q.1 ⟨name⟩) = none) :
    h.insert name value =
      ⟨h.map ++ [(⟨name⟩, value)], h.order ++ [⟨name⟩]⟩ := by
  rw [Headers.insert, mapInsert_append _ hm]
  simp [ho]

/-- Folding inserts of pairwise-fresh names over an accumulator appends
the whole block. -/
theorem foldl_insert_fresh (hl : List (Str × Str)) (h : Headers)
    (hfresh : ∀ p ∈ hl, ((h.order.any fun k => hkEq k ⟨p.1⟩) = false) ∧
      (h.map.find? fun q => hkEq q.1 (⟨p.1⟩ : HeaderKey)) = none)
    (hdist : (hl.map fun p => lowerStr p.1).Pairwise (· ≠ ·)) :
    hl.foldl (fun acc p => acc.insert p.1 p.2) h =
      ⟨h.map ++ (headersOf hl).map, h.order ++ (headersOf hl).order⟩ := by
  induction hl generalizing h with
  | nil => simp [headersOf]
  | cons p rest ih =>
    obtain ⟨ho, hm⟩ := hfresh p (List.mem_cons_self p rest)
    rw [List.foldl_cons, Headers.insert_fresh _ ho hm]
    have hdist' : ∀ q ∈ rest, lowerStr p.1 ≠ lowerStr q.1 := by
      have := (List.pairwise_cons.mp hdist).1
      intro q hq
      exact this _ (List.mem_map_of_mem _ hq)
    rw [ih]
    · simp [headersOf, List.append_assoc]
    · intro q hq
      obtain ⟨ho', hm'⟩ := hfresh q (List.mem_cons_of_mem p hq)
      constructor
      · rw [List.any_append, ho']
        simp only [List.any_cons, List.any_nil, Bool.or_false, Bool.false_or]
        exact hkEq_false_of_ne (by simpa [HeaderKey.lower] using hdist' q hq)
      · rw [List.find?_append, hm']
        simp only [Option.none_or]
        have hne : hkEq (⟨p.1⟩ : HeaderKey) ⟨q.1⟩ = false :=
          hkEq_false_of_ne (by simpa [HeaderKey.lower] using hdist' q hq)
        simp [List.find?_cons, hne]
    · exact (List.pairwise_cons.mp hdist).2

theorem str_colon_space : str ": " = [':', ' '] := rfl

/-- `Headers::parse` on serialized header lines is the fold of inserts. -/
theorem Headers.parseLines_map (hl : List (Str × Str)) (h : Headers)
    (hcl : ∀ p ∈ hl, ':' ∉ p.1 ∧ p.2.dropWhile isWS = p.2 ∧
      p.2.reverse.dropWhile isWS = p.2.reverse) :
    Headers.parseLines h (hl.map hdrLine) =
      .ok (hl.foldl (fun acc p => acc.insert p.1 p.2) h) := by
  induction hl generalizing h with
  | nil => rfl
  | cons p rest ih =>
    obtain ⟨hc, h1, h2⟩ := hcl p (List.mem_cons_self p rest)
    rw [List.map_cons, Headers.parseLines, hdrLine, splitOnceColon_append _ hc]
    show (h.insert p.1 (trimStr (' ' :: p.2))).parseLines (List.map hdrLine rest) = _
    rw [trimStr_space_cons h1 h2, ih _ fun q hq => hcl q (List.mem_cons_of_mem p hq)]
    rfl

/-- `Headers::parse` of a serialized block of clean, pairwise-distinct
pairs rebuilds exactly `headersOf`. -/
theorem Headers.parse_joined (hl : List (Str × Str)) (hne : hl ≠ [])
    (hnames : ∀ p ∈ hl, p.1 ≠ [] ∧ '\r' ∉ p.1 ∧ ':' ∉ p.1)
    (hvals : ∀ p ∈ hl, '\r' ∉ p.2 ∧ p.2.dropWhile isWS = p.2 ∧
      p.2.reverse.dropWhile isWS = p.2.reverse)
    (hdist : (hl.map fun p => lowerStr p.1).Pairwise (· ≠ ·)) :
    Headers.parse (joinCRLF (hl.map hdrLine)) = .ok (headersOf hl) := by
  have hlines : ∀ l ∈ hl.map hdrLine, '\r' ∉ l := by
    intro l hli
    obtain ⟨p, hp, rfl⟩ := List.mem_map.mp hli
    obtain ⟨-, hn, -⟩ := hnames p hp
    obtain ⟨hv, -, -⟩ := hvals p hp
    intro hmem
    rcases List.mem_append.mp hmem with h | h
    · exact hn h
    · rcases h with _ | ⟨_, h⟩
      · rcases h with _ | ⟨_, h⟩
        exact hv h
  rw [Headers.parse, splitCRLF_joinCRLF _ (by simpa using hne) hlines,
    Headers.parseLines_map _ _ fun p hp =>
      ⟨(hnames p hp).2.2, (hvals p hp).2.1, (hvals p hp).2.2⟩,
    foldl_insert_fresh hl Headers.new (fun p _ => ⟨rfl, rfl⟩) hdist]
  rfl

/-- Rendering `headersOf` reproduces the serialized block, line by
line. -/
theorem headersOf_render (hl : List (Str × Str))
    (hdist : (hl.map fun p => lowerStr p.1).Pairwise (· ≠ ·)) :
    (headersOf hl).render = (hl.map fun p => hdrLine p ++ crlf).flatten := by
  induction hl with
  | nil => rfl
  | cons p rest ih =>
    have hdist' : ∀ q ∈ rest, lowerStr p.1 ≠ lowerStr q.1 := by
      have := (List.pairwise_cons.mp hdist).1
      intro q hq
      exact this _ (List.mem_map_of_mem _ hq)
    have hhead : mapGet (headersOf (p :: rest)).map ⟨p.1⟩ = some p.2 := by
      simp [headersOf, mapGet, List.find?_cons, hkEq_refl]
    have htail : ∀ k ∈ (headersOf rest).order,
        mapGet (headersOf (p :: rest)).map k = mapGet (headersOf rest).map k := by
      intro k hk
      obtain ⟨q, hq, rfl⟩ := List.mem_map.mp hk
      have hne : hkEq (⟨p.1⟩ : HeaderKey) ⟨q.1⟩ = false :=
        hkEq_false_of_ne (by simpa [HeaderKey.lower] using hdist' q hq)
      simp [headersOf, mapGet, List.find?_cons, hne]
    show ((headersOf (p :: rest)).order.map fun k =>
        k.original ++ str ": " ++ (mapGet (headersOf (p :: rest)).map k).getD [] ++ crlf).flatten = _
    have horder : (headersOf (p :: rest)).order = ⟨p.1⟩ :: (headersOf rest).order := rfl
    rw [horder, List.map_cons, List.flatten_cons, hhead]
    have : ((headersOf rest).order.map fun k =>
        k.original ++ str ": " ++ (mapGet (headersOf (p :: rest)).map k).getD [] ++ crlf) =
        ((headersOf rest).order.map fun k =>
        k.original ++ str ": " ++ (mapGet (headersOf rest).map k).getD [] ++ crlf) := by
      apply List.map_congr_left
      intro k hk
      rw [htail k hk]
    have ihr := ih (List.pairwise_cons.mp hdist).2
    rw [Headers.render] at ihr
    rw [this, ihr]
    simp [hdrLine, str_colon_space, List.append_assoc]

/-- `Headers.get` on `headersOf` is a first-match search of the pair
list. -/
theorem headersOf_get (hl : List (Str × Str)) (q : Str) :
    (headersOf hl).get q =
      (hl.find? fun p => hkEq ⟨p.1⟩ ⟨q⟩).map (·.2) := by
  rw [Headers.get, headersOf, mapGet]
  simp only [List.find?_map]
  rw [Option.map_map]
  rfl

/-! ## Lemmas: wire-format round trips -/

theorem hdrLine_ne_nil (p : Str × Str) (h : p.1 ≠ []) : hdrLine p ≠ [] := by
  cases hp : p.1 with
  | nil => exact absurd hp h
  | cons c t => simp [hdrLine, hp]

theorem hdrLine_noCR {p : Str × Str} (hn : ∀ c ∈ p.1, c ≠ '\r')
    (hv : ∀ c ∈ p.2, c ≠ '\r') : '\r' ∉ hdrLine p := by
  intro hmem
  rcases List.mem_append.mp hmem with h | h
  · exact hn _ h rfl
  · rcases h with _ | ⟨_, h⟩
    rcases h with _ | ⟨_, h⟩
    exact hv _ h rfl

/-- Serialized output as `joinCRLF`-plus-`delim` shape. -/
theorem wire_shape (s : Str) (ls : List Str) (b : Str) :
    s ++ crlf ++ (ls.map (· ++ crlf)).flatten ++ crlf ++ b =
      joinCRLF (s :: ls) ++ delim ++ b := by
  induction ls generalizing s with
  | nil => simp [joinCRLF, delim, crlf]
  | cons l ls' ih =>
    have hih := ih l
    rw [joinCRLF_cons_cons]
    simp only [List.map_cons, List.flatten_cons, List.append_assoc] at hih ⊢
    rw [hih]

theorem noCR_of_tokenList {s : Str} (h : ∀ c ∈ s, isWS c = false) :
    '\r' ∉ s := fun hm => absurd (h _ hm) (by decide)

theorem noCR_append {a b : Str} (ha : '\r' ∉ a) (hb : '\r' ∉ b) :
    '\r' ∉ a ++ b := by
  intro hm
  rcases List.mem_append.mp hm with h | h
  · exact ha h
  · exact hb h

theorem noCR_cons {c : Char} {b : Str} (hc : c ≠ '\r') (hb : '\r' ∉ b) :
    '\r' ∉ c :: b := by
  intro hm
  rcases hm with _ | ⟨_, h⟩
  · exact hc rfl
  · exact hb h

theorem reqStartLine_noCR (m : Method) {res ver : Str}
    (hres : ∀ c ∈ res, isWS c = false) (hver : ∀ c ∈ ver, isWS c = false) :
    '\r' ∉ reqStartLine m res ver :=
  noCR_append
    (noCR_append (noCR_of_tokenList (Method.render_tokenClean m).2)
      (noCR_cons (by decide) (noCR_of_tokenList hres)))
    (noCR_cons (by decide) (noCR_of_tokenList hver))

theorem splitWS_reqStartLine (m : Method) {res ver : Str}
    (hres : tokenClean res) (hver : tokenClean ver) :
    splitWS (reqStartLine m res ver) = [Method.render m, res, ver] := by
  rw [reqStartLine, List.append_assoc, List.cons_append,
    splitWS_word_append _ (Method.render_tokenClean m),
    splitWS_word_append _ hres, splitWS_word hver]

/-- Core: `Request::parse` (after the read loop, stream exhausted) on the
serialization of clean components returns exactly those components. -/
theorem reqParseRest_wire (m : Method) (res ver body : Str)
    (hl : List (Str × Str))
    (hres : tokenClean res) (hver : tokenClean ver)
    (hclean : cleanHeaderList hl)
    (hCL : ∀ p ∈ hl, lowerStr p.1 = str "content-length" →
      ∃ n, natParse p.2 = some n) :
    Request.parseRest (reqWire m res ver hl body) [] =
      .ok ⟨m, res, ver, headersOf hl, body⟩ := by
  obtain ⟨hne, hnames, hvals, hdist⟩ := hclean
  have hpieces : ∀ p ∈ reqStartLine m res ver :: hl.map hdrLine,
      p ≠ [] ∧ '\r' ∉ p := by
    intro p hp
    rcases hp with _ | ⟨_, hp⟩
    · refine ⟨?_, reqStartLine_noCR m hres.2 hver.2⟩
      have := (Method.render_tokenClean m).1
      cases hm : Method.render m with
      | nil => exact absurd hm this
      | cons c t => simp [reqStartLine, hm]
    · obtain ⟨q, hq, rfl⟩ := List.mem_map.mp hp
      exact ⟨hdrLine_ne_nil q (hnames q hq).1,
        hdrLine_noCR (fun c hc => ((hnames q hq).2 c hc).1)
          (fun c hc => ((hvals q hq).1 c hc).1)⟩
  have hwire : reqWire m res ver hl body =
      joinCRLF (reqStartLine m res ver :: hl.map hdrLine) ++ delim ++ body := by
    rw [reqWire, ← wire_shape]
    simp only [reqStartLine, List.map_map, List.append_assoc, List.cons_append]
    rfl
  have h1 : splitOnceDelim (reqWire m res ver hl body) =
      some (joinCRLF (reqStartLine m res ver :: hl.map hdrLine), body) := by
    rw [hwire]
    exact splitOnceDelim_joinCRLF _ _ (by simp) hpieces
  have h2 : splitOnceCRLF (joinCRLF (reqStartLine m res ver :: hl.map hdrLine)) =
      some (reqStartLine m res ver, joinCRLF (hl.map hdrLine)) :=
    splitOnceCRLF_joinCRLF _ _ (reqStartLine_noCR m hres.2 hver.2)
      (by simpa using hne)
  have h3 := splitWS_reqStartLine m hres hver
  have h4 : Headers.parse (joinCRLF (hl.map hdrLine)) = .ok (headersOf hl) :=
    Headers.parse_joined hl hne
      (fun p hp => ⟨(hnames p hp).1, fun hm => ((hnames p hp).2 _ hm).1 rfl,
        fun hm => ((hnames p hp).2 _ hm).2.2 rfl⟩)
      (fun p hp => ⟨fun hm => ((hvals p hp).1 _ hm).1 rfl, (hvals p hp).2.1,
        (hvals p hp).2.2⟩) hdist
  simp only [Request.parseRest]
  rw [h1]
  simp only [Bind.bind, Except.bind, pure, Except.pure]
  rw [h2]
  simp only []
  rw [h3]
  simp only [List.getElem?_cons_zero, List.getElem?_cons_succ,
    Method.parse_render m]
  rw [h4]
  simp only []
  rcases hfind : (headersOf hl).get (str "Content-Length") with _ | v
  · rfl
  · have hv : ∃ n, natParse v = some n := by
      rw [headersOf_get] at hfind
      rcases hfound : hl.find? fun p => hkEq ⟨p.1⟩ ⟨str "Content-Length"⟩ with _ | p
      · rw [hfound] at hfind
        cases hfind
      · rw [hfound] at hfind
        have hval : p.2 = v := by simpa using hfind
        have hmem := List.mem_of_find?_eq_some hfound
        have hpred := List.find?_some hfound
        have hlow : lowerStr p.1 = str "content-length" := by
          have h5 := hkEq_iff.mp hpred
          simp only [HeaderKey.lower] at h5
          rw [h5]
          decide
        obtain ⟨n, hn⟩ := hCL p hmem hlow
        exact ⟨n, hval ▸ hn⟩
    obtain ⟨n, hn⟩ := hv
    simp [hn, readBody]

/-- Core: rendering the parsed request reproduces the wire bytes. -/
theorem reqRender_wire (m : Method) (res ver body : Str)
    (hl : List (Str × Str))
    (hdist : (hl.map fun p => lowerStr p.1).Pairwise (· ≠ ·)) :
    (⟨m, res, ver, headersOf hl, body⟩ : Request).render =
      reqWire m res ver hl body := by
  rw [Request.render]
  show Method.render m ++ ' ' :: res ++ ' ' :: ver ++ crlf ++
      (headersOf hl).render ++ crlf ++ body = _
  rw [headersOf_render hl hdist, reqWire]

/-! ### Response wire format -/

theorem noCR_joinSpace {ws : List Str} (h : ∀ w ∈ ws, ∀ c ∈ w, isWS c = false) :
    '\r' ∉ joinSpace ws := by
  induction ws with
  | nil => simp [joinSpace]
  | cons w rest ih =>
    cases rest with
    | nil => exact noCR_of_tokenList (h w (List.mem_cons_self w []))
    | cons q rs =>
      show '\r' ∉ w ++ ' ' :: joinSpace (q :: rs)
      exact noCR_append (noCR_of_tokenList (h w (List.mem_cons_self w _)))
        (noCR_cons (by decide) (ih fun x hx => h x (List.mem_cons_of_mem w hx)))

theorem respStartLine_noCR {ver codeStr : Str} (msgWords : List Str)
    (hver : ∀ c ∈ ver, isWS c = false) (hcode : ∀ c ∈ codeStr, isWS c = false)
    (hmsg : ∀ w ∈ msgWords, ∀ c ∈ w, isWS c = false) :
    '\r' ∉ respStartLine ver codeStr msgWords :=
  noCR_append
    (noCR_append (noCR_of_tokenList hver)
      (noCR_cons (by decide) (noCR_of_tokenList hcode)))
    (noCR_cons (by decide) (noCR_joinSpace hmsg))

theorem splitWS_respStartLine {ver codeStr : Str} (msgWords : List Str)
    (hver : tokenClean ver) (hcode : tokenClean codeStr)
    (hmsg : ∀ w ∈ msgWords, tokenClean w) :
    splitWS (respStartLine ver codeStr msgWords) = ver :: codeStr :: msgWords := by
  rw [respStartLine, List.append_assoc, List.cons_append,
    splitWS_word_append _ hver, splitWS_word_append _ hcode,
    splitWS_joinSpace _ hmsg]

/-- Core: `Response::parse` (after the read loop, stream exhausted) on the
serialization of clean components returns exactly those components. -/
theorem respParseRest_wire (ver codeStr body : Str)
    (msgWords : List Str) (hl : List (Str × Str)) (sc : StatusCode)
    (hver : tokenClean ver) (hcodeTok : tokenClean codeStr)
    (hmsg : ∀ w ∈ msgWords, tokenClean w)
    (hclean : cleanHeaderList hl)
    (hCL : ∀ p ∈ hl, lowerStr p.1 = str "content-length" →
      ∃ n, natParse p.2 = some n)
    (hcode : Response.parseStatusCode codeStr = some sc) :
    Response.parseRest (respWire ver codeStr msgWords hl body) [] =
      .ok ⟨ver, some sc, joinSpace msgWords, headersOf hl, body⟩ := by
  obtain ⟨hne, hnames, hvals, hdist⟩ := hclean
  have hpieces : ∀ p ∈ respStartLine ver codeStr msgWords :: hl.map hdrLine,
      p ≠ [] ∧ '\r' ∉ p := by
    intro p hp
    rcases hp with _ | ⟨_, hp⟩
    · refine ⟨?_, respStartLine_noCR msgWords hver.2 hcodeTok.2
        fun w hw => (hmsg w hw).2⟩
      have := hver.1
      cases hv : ver with
      | nil => exact absurd hv this
      | cons c t => simp [respStartLine, hv]
    · obtain ⟨q, hq, rfl⟩ := List.mem_map.mp hp
      exact ⟨hdrLine_ne_nil q (hnames q hq).1,
        hdrLine_noCR (fun c hc => ((hnames q hq).2 c hc).1)
          (fun c hc => ((hvals q hq).1 c hc).1)⟩
  have hwire : respWire ver codeStr msgWords hl body =
      joinCRLF (respStartLine ver codeStr msgWords :: hl.map hdrLine) ++
        delim ++ body := by
    rw [respWire, ← wire_shape]
    simp only [respStartLine, List.map_map, List.append_assoc, List.cons_append]
    rfl
  have h1 : splitOnceDelim (respWire ver codeStr msgWords hl body) =
      some (joinCRLF (respStartLine ver codeStr msgWords :: hl.map hdrLine),
        body) := by
    rw [hwire]
    exact splitOnceDelim_joinCRLF _ _ (by simp) hpieces
  have h2 := splitOnceCRLF_joinCRLF (respStartLine ver codeStr msgWords)
    (hl.map hdrLine)
    (respStartLine_noCR msgWords hver.2 hcodeTok.2 fun w hw => (hmsg w hw).2)
    (by simpa using hne)
  have h3 := splitWS_respStartLine msgWords hver hcodeTok hmsg
  have h4 : Headers.parse (joinCRLF (hl.map hdrLine)) = .ok (headersOf hl) :=
    Headers.parse_joined hl hne
      (fun p hp => ⟨(hnames p hp).1, fun hm => ((hnames p hp).2 _ hm).1 rfl,
        fun hm => ((hnames p hp).2 _ hm).2.2 rfl⟩)
      (fun p hp => ⟨fun hm => ((hvals p hp).1 _ hm).1 rfl, (hvals p hp).2.1,
        (hvals p hp).2.2⟩) hdist
  simp only [Response.parseRest]
  rw [h1]
  simp only [Bind.bind, Except.bind, pure, Except.pure]
  rw [h2]
  simp only []
  rw [h3]
  simp only [List.getElem?_cons_zero, List.getElem?_cons_succ, hcode]
  rw [h4]
  simp only [List.drop_succ_cons, List.drop_zero]
  rcases hfind : (headersOf hl).get (str "Content-Length") with _ | v
  · rfl
  · have hv : ∃ n, natParse v = some n := by
      rw [headersOf_get] at hfind
      rcases hfound : hl.find? fun p => hkEq ⟨p.1⟩ ⟨str "Content-Length"⟩ with _ | p
      · rw [hfound] at hfind
        cases hfind
      · rw [hfound] at hfind
        have hval : p.2 = v := by simpa using hfind
        have hmem := List.mem_of_find?_eq_some hfound
        have hpred := List.find?_some hfound
        have hlow : lowerStr p.1 = str "content-length" := by
          have h5 := hkEq_iff.mp hpred
          simp only [HeaderKey.lower] at h5
          rw [h5]
          decide
        obtain ⟨n, hn⟩ := hCL p hmem hlow
        exact ⟨n, hval ▸ hn⟩
    obtain ⟨n, hn⟩ := hv
    simp [hn, readBody]

/-- Core: rendering the parsed response reproduces the wire bytes,
provided the recognized status code renders back to the same digits. -/
theorem respRender_wire (ver codeStr body : Str) (msgWords : List Str)
    (hl : List (Str × Str)) (sc : StatusCode)
    (hdist : (hl.map fun p => lowerStr p.1).Pairwise (· ≠ ·))
    (hval : natToStr sc.val = codeStr) :
    (⟨ver, some sc, joinSpace msgWords, headersOf hl, body⟩ : Response).render =
      respWire ver codeStr msgWords hl body := by
  rw [Response.render]
  show ver ++ ' ' :: natToStr sc.val ++ ' ' :: joinSpace msgWords ++ crlf ++
      (headersOf hl).render ++ crlf ++ body = _
  rw [hval, headersOf_render hl hdist, respWire]

/-! ## Lemmas: ASCII case mapping and case-insensitive lookup -/

theorem charToNat_ofNat {n : Nat} (h : n < 55296) : (Char.ofNat n).toNat = n := by
  rw [Char.ofNat, dif_pos (Or.inl h)]
  rfl

theorem lowerChar_upperChar (c : Char) : lowerChar (upperChar c) = lowerChar c := by
  unfold upperChar lowerChar
  by_cases h1 : c.toNat ≥ 97 ∧ c.toNat ≤ 122
  · rw [if_pos h1]
    have ht : (Char.ofNat (c.toNat - 32)).toNat = c.toNat - 32 :=
      charToNat_ofNat (by omega)
    rw [ht, if_pos (by omega), if_neg (by omega),
      show c.toNat - 32 + 32 = c.toNat by omega, Char.ofNat_toNat]
  · rw [if_neg h1]

theorem lowerChar_lowerChar (c : Char) : lowerChar (lowerChar c) = lowerChar c := by
  by_cases h1 : c.toNat ≥ 65 ∧ c.toNat ≤ 90
  · have h2 : lowerChar c = Char.ofNat (c.toNat + 32) := by
      rw [lowerChar, if_pos h1]
    have ht : (Char.ofNat (c.toNat + 32)).toNat = c.toNat + 32 :=
      charToNat_ofNat (by omega)
    rw [h2, lowerChar, ht, if_neg (by omega)]
  · have h2 : lowerChar c = c := by rw [lowerChar, if_neg h1]
    rw [h2, h2]

theorem lowerStr_upperStr (s : Str) : lowerStr (upperStr s) = lowerStr s := by
  rw [lowerStr, upperStr, List.map_map]
  exact List.map_congr_left fun c _ => lowerChar_upperChar c

theorem lowerStr_lowerStr (s : Str) : lowerStr (lowerStr s) = lowerStr s := by
  rw [lowerStr, lowerStr, List.map_map]
  exact List.map_congr_left fun c _ => lowerChar_lowerChar c

/-- Looking up (any casing of) the key just inserted finds the new
value. -/
theorem mapGet_mapInsert_hit (m : List (HeaderKey × Str)) {k q : HeaderKey}
    (v : Str) (h : k.lower = q.lower) :
    mapGet (mapInsert m k v) q = some v := by
  induction m with
  | nil => simp [mapInsert, mapGet, List.find?_cons, hkEq_iff.mpr h]
  | cons e rest ih =>
    cases he : hkEq e.1 k with
    | true =>
      have heq : hkEq e.1 q = true :=
        hkEq_iff.mpr ((hkEq_iff.mp he).trans h)
      rw [mapInsert, if_pos he]
      simp [mapGet, List.find?_cons, heq]
    | false =>
      have hq : hkEq e.1 q = false := by
        cases hh : hkEq e.1 q with
        | false => rfl
        | true =>
          have : e.1.lower = k.lower := (hkEq_iff.mp hh).trans h.symm
          rw [hkEq_iff.mpr this] at he
          cases he
      rw [mapInsert, if_neg (by simp [he])]
      have ih2 := ih
      rw [mapGet] at ih2
      simp [mapGet, List.find?_cons, hq, ih2]

/-- `Headers::get` after `Headers::insert` under any query whose lowercase
form matches the inserted name. -/
theorem Headers.get_insert (h : Headers) (n v q : Str)
    (hq : lowerStr n = lowerStr q) : (h.insert n v).get q = some v := by
  rw [Headers.insert, Headers.get]
  exact mapGet_mapInsert_hit _ _ (by simpa [HeaderKey.lower] using hq)

/-! ## The claims -/

/-- C1.  The claim says the header-read loops of `Request::parse` and
`Response::parse` stop exactly when the cumulative accumulation buffer
contains `\r\n\r\n` (or at end-of-stream), so that a delimiter split
across two reads is detected without waiting for stream close.  The code
scans the scratch buffer `tmp` instead of the accumulation buffer `buf`:
on a stream delivering `"GET / HTTP/1.1\r\nHost: x\r\n\r"`, then `"\n"`,
then `"XYZ"`, the accumulation buffer contains the delimiter after the
second read (third conjunct), yet both loops (1024-byte request scratch
buffer, 4096-byte response one) keep reading to end-of-stream, consuming
the third chunk as well (first two conjuncts). -/
theorem claim_C1_read_loop_scans_scratch_buffer :
    readLoop (tmpInit 1024) []
        [str "GET / HTTP/1.1\r\nHost: x\r\n\r", str "\n", str "XYZ"] =
      (str "GET / HTTP/1.1\r\nHost: x\r\n\r" ++ str "\n" ++ str "XYZ", []) ∧
    readLoop (tmpInit 4096) []
        [str "GET / HTTP/1.1\r\nHost: x\r\n\r", str "\n", str "XYZ"] =
      (str "GET / HTTP/1.1\r\nHost: x\r\n\r" ++ str "\n" ++ str "XYZ", []) ∧
    hasDelim (str "GET / HTTP/1.1\r\nHost: x\r\n\r" ++ str "\n") = true :=
  ⟨by decide, by decide, by decide⟩

/-- C2, counterexample.  The claim says `StatusCode::parse` returns the
matching variant for every code in the closed 100–511 table and that
serialization emits an unrecognized code's original numeric value.  But
the parse table omits `"402"` and `"403"` (although the enum defines
`PaymentRequired = 402` and `Forbidden = 403`), and the `Unknown`
sentinel carries no number — it serializes as the fixed `999`: parsing
`"402"` (or any unknown code such as `"720"`) and serializing yields
`"999"`, not the original digits. -/
theorem claim_C2_counterexample :
    StatusCode.parse (str "402") = .Unknown ∧
    StatusCode.render (StatusCode.parse (str "402")) = str "999" ∧
    str "999" ≠ str "402" ∧
    StatusCode.parse (str "403") = .Unknown ∧
    StatusCode.parse (str "720") = .Unknown ∧
    StatusCode.render (StatusCode.parse (str "720")) = str "999" :=
  ⟨by decide, by decide, by decide, by decide, by decide, by decide⟩

/-- C2, amended.  `StatusCode::parse` is total: every code string in its
match table (which omits `"402"` and `"403"`) maps to its variant and
serializes back to the same digits, and every other string maps to the
`Unknown` sentinel, which serializes as the fixed digits `999` (so the
numeric value survives a round trip exactly for the table's codes, and
coincidentally for `"999"`). -/
theorem claim_C2_amended :
    ((statusParseTable.all fun p => (StatusCode.parse p.1 == p.2) &&
      (StatusCode.render (StatusCode.parse p.1) == p.1)) = true) ∧
    (∀ s : Str, (∀ p ∈ statusParseTable, p.1 ≠ s) →
      StatusCode.parse s = .Unknown ∧
      StatusCode.render (StatusCode.parse s) = str "999") := by
  constructor
  · decide
  · intro s h
    have hf : (statusParseTable.find? fun p => p.1 = s) = none :=
      List.find?_eq_none.mpr fun p hp => by simpa using h p hp
    constructor
    · rw [StatusCode.parse, hf]
    · rw [StatusCode.parse, hf]
      decide

/-- C2, witness for the amended theorem at the unknown code `"777"`. -/
theorem claim_C2_amended_witness :
    StatusCode.parse (str "777") = .Unknown ∧
    StatusCode.render (StatusCode.parse (str "777")) = str "999" :=
  claim_C2_amended.2 (str "777") (by decide)

/-- C3.  With a credential `u` configured, a first request whose extracted
credential token is wrong (header absent, not starting with `Basic`, or
second whitespace-delimited word differing from `base64(u)`) receives
exactly one `407` response carrying
`Proxy-Authenticate: Basic realm="rox"`, the handler loops to read the
next request on the same connection, and a second request carrying the
correct token with method CONNECT proceeds past authentication to the
CONNECT check and the upstream dial of its resource. -/
theorem claim_C3_auth_challenge_loop (u : Str) (req1 req2 : Request)
    (h1 : authToken req1 ≠ some (base64Str u))
    (h2 : authToken req2 = some (base64Str u))
    (hm : req2.method = .CONNECT) :
    handleConnection (some u) [.ok req1, .ok req2] =
      ([challenge407], .dial req2.resource) ∧
    challenge407.status_code = some .ProxyAuthenticationRequired ∧
    challenge407.headers.get (str "Proxy-Authenticate") =
      some (str "Basic realm=\"rox\"") := by
  refine ⟨?_, by decide, by decide⟩
  have hstep2 : handleConnection (some u) [.ok req2] = ([], .dial req2.resource) := by
    simp [handleConnection, h2, afterAuth, hm]
  rcases ha : authToken req1 with _ | tok
  · simp [handleConnection, ha, h2, afterAuth, hm]
  · have htok : tok ≠ base64Str u := fun he => h1 (by rw [ha, he])
    simp [handleConnection, ha, htok, h2, afterAuth, hm]

/-- C3, witness: credential `alice:secret`; the first CONNECT request has
no `Proxy-Authorization` header, the second carries
`Basic YWxpY2U6c2VjcmV0` (the base64 of the credential). -/
theorem claim_C3_auth_challenge_loop_witness :
    handleConnection (some (str "alice:secret"))
      [.ok ⟨.CONNECT, str "example.com:443", str "HTTP/1.1", Headers.new, []⟩,
       .ok ⟨.CONNECT, str "example.com:443", str "HTTP/1.1",
         Headers.new.insert (str "Proxy-Authorization")
           (str "Basic YWxpY2U6c2VjcmV0"), []⟩] =
      ([challenge407], .dial (str "example.com:443")) ∧
    challenge407.status_code = some .ProxyAuthenticationRequired ∧
    challenge407.headers.get (str "Proxy-Authenticate") =
      some (str "Basic realm=\"rox\"") :=
  claim_C3_auth_challenge_loop (str "alice:secret") _ _
    (by decide) (by decide) (by decide)

/-- C5.  When the downstream connection closes before any request bytes
arrive, the parse yields the "stream closed / no data" failure
(`closedStreamParse`, the `StatusCode::Unknown` sentinel `proxy.rs`
checks for) and the handler returns silently: it writes no response of
any kind downstream, whatever the configured credential. -/
theorem claim_C5_silent_close (user : Option Str) :
    handleConnection user [closedStreamParse] = ([], .silent) := rfl

/-- C4, counterexample.  The claim asserts `serialize(parse(R)) == R` for
every well-formed message.  The well-formed response
`HTTP/1.1 402 Payment Required\r\nServer: x\r\n\r\n` parses successfully,
but its status code is not in the parse table, so it re-serializes with
the fixed placeholder `999` — not byte-identical to the input. -/
theorem claim_C4_counterexample :
    Response.parseRest (str "HTTP/1.1 402 Payment Required\r\nServer: x\r\n\r\n") [] =
      .ok ⟨str "HTTP/1.1", none, str "Payment Required",
        ⟨[(⟨str "Server"⟩, str "x")], [⟨str "Server"⟩]⟩, []⟩ ∧
    (⟨str "HTTP/1.1", none, str "Payment Required",
        ⟨[(⟨str "Server"⟩, str "x")], [⟨str "Server"⟩]⟩, []⟩ : Response).render =
      str "HTTP/1.1 999 Payment Required\r\nServer: x\r\n\r\n" ∧
    str "HTTP/1.1 999 Payment Required\r\nServer: x\r\n\r\n" ≠
      str "HTTP/1.1 402 Payment Required\r\nServer: x\r\n\r\n" :=
  ⟨by decide, by decide, by decide⟩

/-- C4, amended.  `serialize(parse(R)) == R` holds for every request wire
sequence built from clean components (whitespace-free nonempty target and
version tokens, a nonempty header block with CR/LF/colon-free names and
edge-trimmed CR/LF-free values in any order, pairwise case-insensitively
distinct names, any numeric-parseable `Content-Length`, any body), and
for every response wire sequence likewise built whose numeric status code
is in the parse table (which excludes `402`, `403` and all unlisted
codes — those collapse to `999`, see the counterexample); the response's
reason phrase must be its whitespace-normalized word form (possibly
empty). -/
theorem claim_C4_amended :
    (∀ (m : Method) (res ver body : Str) (hl : List (Str × Str)),
      tokenClean res → tokenClean ver → cleanHeaderList hl →
      (∀ p ∈ hl, lowerStr p.1 = str "content-length" →
        (natParse p.2).isSome = true) →
      Request.parseRest (reqWire m res ver hl body) [] =
        .ok ⟨m, res, ver, headersOf hl, body⟩ ∧
      (⟨m, res, ver, headersOf hl, body⟩ : Request).render =
        reqWire m res ver hl body) ∧
    (∀ (ver codeStr body : Str) (msgWords : List Str)
      (hl : List (Str × Str)) (sc : StatusCode),
      tokenClean ver → tokenClean codeStr → (∀ w ∈ msgWords, tokenClean w) →
      cleanHeaderList hl →
      (∀ p ∈ hl, lowerStr p.1 = str "content-length" →
        (natParse p.2).isSome = true) →
      Response.parseStatusCode codeStr = some sc →
      natToStr sc.val = codeStr →
      Response.parseRest (respWire ver codeStr msgWords hl body) [] =
        .ok ⟨ver, some sc, joinSpace msgWords, headersOf hl, body⟩ ∧
      (⟨ver, some sc, joinSpace msgWords, headersOf hl, body⟩ : Response).render =
        respWire ver codeStr msgWords hl body) := by
  constructor
  · intro m res ver body hl hres hver hclean hCL
    exact ⟨reqParseRest_wire m res ver body hl hres hver hclean
        fun p hp hlow => Option.isSome_iff_exists.mp (by
          simpa using hCL p hp hlow),
      reqRender_wire m res ver body hl hclean.2.2.2⟩
  · intro ver codeStr body msgWords hl sc hver hcodeTok hmsg hclean hCL hcode hval
    exact ⟨respParseRest_wire ver codeStr body msgWords hl sc hver
        hcodeTok hmsg hclean
        (fun p hp hlow => Option.isSome_iff_exists.mp (by
          simpa using hCL p hp hlow)) hcode,
      respRender_wire ver codeStr body msgWords hl sc hclean.2.2.2 hval⟩

/-- C4, witness: a concrete GET request with two headers and a body, and
a concrete `200 OK` response, both round-tripping byte-identically. -/
theorem claim_C4_amended_witness :
    (Request.parseRest (reqWire .GET (str "/") (str "HTTP/1.1")
        [(str "Host", str "x"), (str "Content-Length", str "2")] (str "hi")) [] =
      .ok ⟨.GET, str "/", str "HTTP/1.1",
        headersOf [(str "Host", str "x"), (str "Content-Length", str "2")],
        str "hi"⟩ ∧
    (⟨.GET, str "/", str "HTTP/1.1",
        headersOf [(str "Host", str "x"), (str "Content-Length", str "2")],
        str "hi"⟩ : Request).render =
      reqWire .GET (str "/") (str "HTTP/1.1")
        [(str "Host", str "x"), (str "Content-Length", str "2")] (str "hi")) ∧
    (Response.parseRest (respWire (str "HTTP/1.1") (str "200") [str "OK"]
        [(str "Server", str "x")] []) [] =
      .ok ⟨str "HTTP/1.1", some .OK, joinSpace [str "OK"],
        headersOf [(str "Server", str "x")], []⟩ ∧
    (⟨str "HTTP/1.1", some .OK, joinSpace [str "OK"],
        headersOf [(str "Server", str "x")], []⟩ : Response).render =
      respWire (str "HTTP/1.1") (str "200") [str "OK"]
        [(str "Server", str "x")] []) :=
  ⟨claim_C4_amended.1 .GET (str "/") (str "HTTP/1.1") (str "hi")
      [(str "Host", str "x"), (str "Content-Length", str "2")]
      (by decide) (by decide)
      ⟨by decide, by decide, by decide, by decide⟩ (by decide),
   claim_C4_amended.2 (str "HTTP/1.1") (str "200") [] [str "OK"]
      [(str "Server", str "x")] .OK (by decide) (by decide) (by decide)
      ⟨by decide, by decide, by decide, by decide⟩ (by decide) (by decide)
      (by decide)⟩

/-- C6.  Starting from an empty collection, inserting names A, B, C in
order and then inserting B again under any casing with a new value
serializes in order A, B, C with B's new value under B's first-inserted
casing at its original position. -/
theorem claim_C6_insertion_order_stable (a b c bb va vb vc vb2 : Str)
    (hab : lowerStr a ≠ lowerStr b) (hac : lowerStr a ≠ lowerStr c)
    (hbc : lowerStr b ≠ lowerStr c) (hbb : lowerStr bb = lowerStr b) :
    ((((Headers.new.insert a va).insert b vb).insert c vc).insert bb vb2).render =
      (a ++ str ": " ++ va ++ crlf) ++ (b ++ str ": " ++ vb2 ++ crlf) ++
        (c ++ str ": " ++ vc ++ crlf) := by
  have e1 : hkEq (⟨a⟩ : HeaderKey) ⟨b⟩ = false :=
    hkEq_false_of_ne (by simpa [HeaderKey.lower] using hab)
  have e2 : hkEq (⟨a⟩ : HeaderKey) ⟨c⟩ = false :=
    hkEq_false_of_ne (by simpa [HeaderKey.lower] using hac)
  have e3 : hkEq (⟨b⟩ : HeaderKey) ⟨c⟩ = false :=
    hkEq_false_of_ne (by simpa [HeaderKey.lower] using hbc)
  have f1 : hkEq (⟨a⟩ : HeaderKey) ⟨bb⟩ = false :=
    hkEq_false_of_ne (by simp only [HeaderKey.lower]; rw [hbb]; exact hab)
  have f2 : hkEq (⟨b⟩ : HeaderKey) ⟨bb⟩ = true :=
    hkEq_iff.mpr (by simp only [HeaderKey.lower]; rw [hbb])
  have f3 : hkEq (⟨c⟩ : HeaderKey) ⟨bb⟩ = false := by
    refine hkEq_false_of_ne ?_
    simp only [HeaderKey.lower]
    rw [hbb]
    exact fun h => hbc h.symm
  have s1 : Headers.new.insert a va = ⟨[(⟨a⟩, va)], [⟨a⟩]⟩ := rfl
  have s2 : (⟨[(⟨a⟩, va)], [⟨a⟩]⟩ : Headers).insert b vb =
      ⟨[(⟨a⟩, va), (⟨b⟩, vb)], [⟨a⟩, ⟨b⟩]⟩ := by
    simp [Headers.insert, mapInsert, e1]
  have s3 : (⟨[(⟨a⟩, va), (⟨b⟩, vb)], [⟨a⟩, ⟨b⟩]⟩ : Headers).insert c vc =
      ⟨[(⟨a⟩, va), (⟨b⟩, vb), (⟨c⟩, vc)], [⟨a⟩, ⟨b⟩, ⟨c⟩]⟩ := by
    simp [Headers.insert, mapInsert, e2, e3]
  have s4 : (⟨[(⟨a⟩, va), (⟨b⟩, vb), (⟨c⟩, vc)],
      [⟨a⟩, ⟨b⟩, ⟨c⟩]⟩ : Headers).insert bb vb2 =
      ⟨[(⟨a⟩, va), (⟨b⟩, vb2), (⟨c⟩, vc)], [⟨a⟩, ⟨b⟩, ⟨c⟩]⟩ := by
    simp [Headers.insert, mapInsert, f1, f2, f3]
  rw [s1, s2, s3, s4]
  have g1 : hkEq (⟨b⟩ : HeaderKey) ⟨a⟩ = false := by
    refine hkEq_false_of_ne fun h => hab ?_
    simpa [HeaderKey.lower] using h.symm
  have g2 : hkEq (⟨c⟩ : HeaderKey) ⟨a⟩ = false := by
    refine hkEq_false_of_ne fun h => hac ?_
    simpa [HeaderKey.lower] using h.symm
  have g3 : hkEq (⟨c⟩ : HeaderKey) ⟨b⟩ = false := by
    refine hkEq_false_of_ne fun h => hbc ?_
    simpa [HeaderKey.lower] using h.symm
  simp [Headers.render, mapGet, List.find?_cons, hkEq_refl, e1, e2, e3,
    g1, g2, g3, str_colon_space, List.append_assoc]

/-- C6, witness at names `Host`, `Accept`, `Connection` with the
overwrite of `Accept` spelled `ACCEPT`. -/
theorem claim_C6_insertion_order_stable_witness :
    ((((Headers.new.insert (str "Host") (str "h")).insert (str "Accept")
        (str "1")).insert (str "Connection") (str "close")).insert
        (str "ACCEPT") (str "2")).render =
      (str "Host" ++ str ": " ++ str "h" ++ crlf) ++
        (str "Accept" ++ str ": " ++ str "2" ++ crlf) ++
        (str "Connection" ++ str ": " ++ str "close" ++ crlf) :=
  claim_C6_insertion_order_stable (str "Host") (str "Accept")
    (str "Connection") (str "ACCEPT") (str "h") (str "1") (str "close")
    (str "2") (by decide) (by decide) (by decide) (by decide)

/-- C7.  Header lookup is case-insensitive: after inserting name N with
value V into any collection, `get` under N itself, its uppercased form
and its lowercased form all return V. -/
theorem claim_C7_case_insensitive_get (h : Headers) (n v : Str) :
    (h.insert n v).get n = some v ∧
    (h.insert n v).get (upperStr n) = some v ∧
    (h.insert n v).get (lowerStr n) = some v :=
  ⟨Headers.get_insert h n v n rfl,
   Headers.get_insert h n v (upperStr n) (lowerStr_upperStr n).symm,
   Headers.get_insert h n v (lowerStr n) (lowerStr_lowerStr n).symm⟩

/-- C8, counterexample.  The claim says that with `Content-Length: n` and
at least `n` body bytes available, parse returns exactly the first `n`
body bytes.  But the body loop appends whole buffered chunks: on
`GET / HTTP/1.1\r\nContent-Length: 3\r\n\r\nabcdef` (six body bytes
buffered with the headers), the parsed body is all of `abcdef`, not the
first three bytes. -/
theorem claim_C8_counterexample :
    Request.parseChunks [str "GET / HTTP/1.1\r\nContent-Length: 3\r\n\r\nabcdef"] =
      .ok ⟨.GET, str "/", str "HTTP/1.1",
        ⟨[(⟨str "Content-Length"⟩, str "3")], [⟨str "Content-Length"⟩]⟩,
        str "abcdef"⟩ ∧
    str "abcdef" ≠ (str "abcdef").take 3 :=
  ⟨by decide, by decide⟩

/-- C8, amended.  Body reads are bounded by `Content-Length` only at
chunk granularity and tolerate early close: (1) the body loop appends a
whole chunk whenever the body is still shorter than the declared length
and stops otherwise or at end-of-stream; (2) for a request whose declared
`Content-Length` parses as any `n`, parsing with the stream exhausted
returns every body byte that arrived — exactly `n` bytes when exactly
`n` arrived, and the `k < n` bytes received before an early close,
successfully and without error in every case. -/
theorem claim_C8_amended :
    (∀ (b : Str) (n : Nat) (c : Str) (rest : List Str),
      (b.length < n → readBody b n (c :: rest) = readBody (b ++ c) n rest) ∧
      (¬b.length < n → readBody b n (c :: rest) = b) ∧
      readBody b n [] = b) ∧
    (∀ (m : Method) (res ver body : Str) (hl : List (Str × Str)),
      tokenClean res → tokenClean ver → cleanHeaderList hl →
      (∀ p ∈ hl, lowerStr p.1 = str "content-length" →
        (natParse p.2).isSome = true) →
      Request.parseRest (reqWire m res ver hl body) [] =
        .ok ⟨m, res, ver, headersOf hl, body⟩) := by
  constructor
  · intro b n c rest
    refine ⟨fun h => ?_, fun h => ?_, rfl⟩
    · rw [readBody, if_pos h]
    · rw [readBody, if_neg h]
  · intro m res ver body hl hres hver hclean hCL
    exact reqParseRest_wire m res ver body hl hres hver hclean
      fun p hp hlow => Option.isSome_iff_exists.mp (by simpa using hCL p hp hlow)

/-- C8, witness: `Content-Length: 13` with exactly thirteen body bytes
parses to those thirteen bytes; `Content-Length: 13` with only five body
bytes before stream close parses successfully to those five bytes. -/
theorem claim_C8_amended_witness :
    readBody (str "Hello") 13 [] = str "Hello" ∧
    Request.parseRest (reqWire .POST (str "/d") (str "HTTP/1.1")
        [(str "Content-Length", str "13")] (str "Hello, world!")) [] =
      .ok ⟨.POST, str "/d", str "HTTP/1.1",
        headersOf [(str "Content-Length", str "13")], str "Hello, world!"⟩ ∧
    Request.parseRest (reqWire .POST (str "/d") (str "HTTP/1.1")
        [(str "Content-Length", str "13")] (str "Hello")) [] =
      .ok ⟨.POST, str "/d", str "HTTP/1.1",
        headersOf [(str "Content-Length", str "13")], str "Hello"⟩ :=
  ⟨(claim_C8_amended.1 (str "Hello") 13 [] []).2.2,
   claim_C8_amended.2 .POST (str "/d") (str "HTTP/1.1") (str "Hello, world!")
     [(str "Content-Length", str "13")] (by decide) (by decide)
     ⟨by decide, by decide, by decide, by decide⟩ (by decide),
   claim_C8_amended.2 .POST (str "/d") (str "HTTP/1.1") (str "Hello")
     [(str "Content-Length", str "13")] (by decide) (by decide)
     ⟨by decide, by decide, by decide, by decide⟩ (by decide)⟩

/-- C9.  A status line with a trailing space and no reason phrase (empty
word list) parses to an empty status message, and the response
re-serializes byte-identically — the trailing space before the CRLF is
preserved (third conjunct spells it out). -/
theorem claim_C9_empty_reason_phrase (ver codeStr body : Str)
    (hl : List (Str × Str)) (sc : StatusCode)
    (hver : tokenClean ver) (hcodeTok : tokenClean codeStr)
    (hclean : cleanHeaderList hl)
    (hCL : ∀ p ∈ hl, lowerStr p.1 = str "content-length" →
      (natParse p.2).isSome = true)
    (hcode : Response.parseStatusCode codeStr = some sc)
    (hval : natToStr sc.val = codeStr) :
    Response.parseRest (respWire ver codeStr [] hl body) [] =
      .ok ⟨ver, some sc, [], headersOf hl, body⟩ ∧
    (⟨ver, some sc, [], headersOf hl, body⟩ : Response).render =
      respWire ver codeStr [] hl body ∧
    respWire ver codeStr [] hl body =
      ver ++ ' ' :: codeStr ++ [' '] ++ crlf ++
        ((hl.map fun p => hdrLine p ++ crlf).flatten ++ crlf ++ body) := by
  have hmsg : ∀ w ∈ ([] : List Str), tokenClean w := by simp
  have hCL' : ∀ p ∈ hl, lowerStr p.1 = str "content-length" →
      ∃ n, natParse p.2 = some n :=
    fun p hp hlow => Option.isSome_iff_exists.mp (by simpa using hCL p hp hlow)
  refine ⟨respParseRest_wire ver codeStr body [] hl sc hver hcodeTok
      hmsg hclean hCL' hcode,
    respRender_wire ver codeStr body [] hl sc hclean.2.2.2 hval, ?_⟩
  rw [respWire]
  show ver ++ ' ' :: codeStr ++ ' ' :: joinSpace [] ++ crlf ++ _ ++ crlf ++ body = _
  rw [show joinSpace [] = ([] : Str) from rfl]
  simp [List.append_assoc]

/-- C9, witness: `HTTP/2 200 \r\nserver: Vercel\r\n\r\n`. -/
theorem claim_C9_empty_reason_phrase_witness :
    Response.parseRest (respWire (str "HTTP/2") (str "200") []
        [(str "server", str "Vercel")] []) [] =
      .ok ⟨str "HTTP/2", some .OK, [],
        headersOf [(str "server", str "Vercel")], []⟩ ∧
    (⟨str "HTTP/2", some .OK, [],
        headersOf [(str "server", str "Vercel")], []⟩ : Response).render =
      respWire (str "HTTP/2") (str "200") [] [(str "server", str "Vercel")] [] :=
  ⟨(claim_C9_empty_reason_phrase (str "HTTP/2") (str "200") []
      [(str "server", str "Vercel")] .OK (by decide) (by decide)
      ⟨by decide, by decide, by decide, by decide⟩ (by decide) (by decide)
      (by decide)).1,
   (claim_C9_empty_reason_phrase (str "HTTP/2") (str "200") []
      [(str "server", str "Vercel")] .OK (by decide) (by decide)
      ⟨by decide, by decide, by decide, by decide⟩ (by decide) (by decide)
      (by decide)).2.1⟩

/-- C10.  Any input consisting of a (CR-free) start line immediately
followed by the header/body delimiter — a valid HTTP message with zero
headers, such as `GET / HTTP/1.1\r\n\r\n` — is rejected by
`Request::parse` with `400 Bad Request`: the header section then contains
no CRLF, so the start-line/header split fails. -/
theorem claim_C10_zero_header_request_rejected (s : Str) (h : '\r' ∉ s) :
    Request.parseRest (s ++ delim) [] = .error .BadRequest := by
  have h1 : splitOnceDelim (s ++ delim) = some (s, []) := by
    have hd : splitOnceDelim delim = some ([], []) := by decide
    rw [splitOnceDelim_append_of_noCR delim h, hd]
    simp
  simp only [Request.parseRest]
  rw [h1]
  simp only [Bind.bind, Except.bind, pure, Except.pure]
  rw [splitOnceCRLF_eq_none_of_noCR h]

/-- C10, witness at `GET / HTTP/1.1\r\n\r\n`. -/
theorem claim_C10_zero_header_request_rejected_witness :
    Request.parseRest (str "GET / HTTP/1.1" ++ delim) [] =
      .error .BadRequest :=
  claim_C10_zero_header_request_rejected (str "GET / HTTP/1.1") (by decide)

end Rox
